import Mathlib

/-!
Shallow embedding of the trip-signup core of `ws/views.py` (admission,
waitlisting, administrator batch reconciliation, capacity-overflow preview,
reciprocal lottery pairing), together with the parts of the repository that
`views.py` calls but whose code is not under `src/` (`ws.utils.signups`,
the model layer, and the revision guard declared by migration
`0043_trip_edit_revision`); those are modelled from the specification and
marked as such in their doc comments.
-/

set_option autoImplicit false

namespace MitocTrips

/-- A `SignUp` row.  The model definition (`ws/models.py`) is not under
`src/`; the fields are taken from their uses in `ws/views.py` and from the
spec's data model (§3).  `order` is the nullable ordering key of §3
("rank": waitlist position or lottery-mode personal rank, assigned by
`next_in_order` and by the lottery-preference view).  `skip_signals`
mirrors the transient Python attribute set in
`AdminTripSignupsView.update_signups` ("Skip the waitlist-bumping
behavior") and consulted by the promote-on-withdraw side effect. -/
structure SignUp where
  id : Nat
  participant : Nat
  trip : Nat
  on_trip : Bool
  order : Option Int
  time_created : Nat
  skip_signals : Bool := false
  deriving Repr, DecidableEq

/-- A `Trip` row, with the fields used by the embedded views.
`edit_revision` is declared by migration `0043_trip_edit_revision`
("An incremented integer, to avoid simultaneous edits to the trip"). -/
structure Trip where
  id : Nat
  maximum_participants : Int
  signups_open : Bool
  algorithm : String
  trip_date : Nat
  edit_revision : Nat
  deriving Repr, DecidableEq

/-- A `LotteryInfo` row: the directed pairing edge used by
`LotteryPairingMixin` (`lotteryinfo.paired_with`). -/
structure LotteryInfo where
  participant : Nat
  paired_with : Option Nat
  deriving Repr, DecidableEq

/-- The relational store visible to the embedded views: the trips, the
signups and the lottery-pairing rows. -/
structure DB where
  trips : List Trip
  signups : List SignUp
  lotteryinfos : List LotteryInfo
  deriving Repr, DecidableEq

/-- Python exceptions raised (or Django ORM errors) in the embedded code
paths.  `nameError` and `typeError` stand for the uncaught
`UnboundLocalError` / `TypeError` raised by the `signup['participant']`
line of `AdminTripSignupsView.to_objects`. -/
inductive PyErr where
  | keyError
  | objectDoesNotExist
  | validationError
  | typeError
  | nameError
  | multipleObjectsReturned
  deriving Repr, DecidableEq

/-- `Trip.objects.get(pk=...)`. -/
def getTrip (db : DB) (pk : Nat) : Option Trip :=
  db.trips.find? (fun t => t.id == pk)

/-- `SignUp.objects.get(pk=...)`. -/
def getSignup (db : DB) (pk : Nat) : Option SignUp :=
  db.signups.find? (fun s => s.id == pk)

/-- `trip.save()`: replace the row with a matching primary key. -/
def saveTrip (db : DB) (t : Trip) : DB :=
  { db with trips := db.trips.map (fun u => if u.id == t.id then t else u) }

/-- Raw row write for a signup (`INSERT` or `UPDATE` by primary key),
without any signal side effect. -/
def saveSignupRow (db : DB) (s : SignUp) : DB :=
  if db.signups.any (fun u => u.id == s.id) then
    { db with signups := db.signups.map (fun u => if u.id == s.id then s else u) }
  else
    { db with signups := db.signups ++ [s] }

/-- Raw row delete for a signup, without any signal side effect. -/
def deleteSignupRow (db : DB) (pk : Nat) : DB :=
  { db with signups := db.signups.filter (fun u => !(u.id == pk)) }

/-- Number of signups currently on the trip (`on_trip = true`). -/
def confirmedCount (db : DB) (tripId : Nat) : Nat :=
  (db.signups.filter (fun s => s.trip == tripId && s.on_trip)).length

/-- Stable insertion into a list sorted by the boolean relation `le`. -/
def insertLe {α : Type} (le : α → α → Bool) (x : α) : List α → List α
  | [] => [x]
  | y :: ys => if le x y then x :: y :: ys else y :: insertLe le x ys

/-- Stable insertion sort by the boolean relation `le`. -/
def sortLe {α : Type} (le : α → α → Bool) : List α → List α
  | [] => []
  | x :: xs => insertLe le x (sortLe le xs)

/-- Admission-priority order over signups.  Modelled from the spec: the
`SignUp` model's default queryset ordering is not under `src/`; §4.2 fixes
the priority as earliest `created_at` first, tie-broken here by primary
key to make the order total. -/
def priorityLe (a b : SignUp) : Bool :=
  a.time_created < b.time_created ||
    (a.time_created == b.time_created && a.id ≤ b.id)

/-- `trip.signup_set.filter(on_trip=True)` in admission-priority order. -/
def onTripList (db : DB) (tripId : Nat) : List SignUp :=
  sortLe priorityLe (db.signups.filter (fun s => s.trip == tripId && s.on_trip))

/-- Waitlist (and lottery-rank) comparison: ascending `order` when
present, else FIFO by `created_at`.  Modelled from the spec: §3's derived
waitlist order (the `WaitListSignup` model is not under `src/`); rows with
a rank sort before rank-less rows, and ties fall back to admission
priority.  The same key also embeds the view's
`order_by('order', 'time_created')` for lottery-ranked signups. -/
def wlLe (a b : SignUp) : Bool :=
  match a.order, b.order with
  | some ra, some rb => ra < rb || (ra == rb && priorityLe a b)
  | some _, none => true
  | none, some _ => false
  | none, none => priorityLe a b

/-- The trip's waitlist: its non-confirmed signups in waitlist order.
Modelled from the spec (§3): the waitlist is the derived total order over
the non-confirmed signups of one event. -/
def waitlisted (db : DB) (tripId : Nat) : List SignUp :=
  sortLe wlLe (db.signups.filter (fun s => s.trip == tripId && !s.on_trip))

/-- Modelled from the spec: `promote_head` (§4.2).  The promotion code
(waitlist signal handlers / `ws.utils.signups`) is not under `src/`; §4.2
says it pops the earliest waitlisted signup per the waitlist order and
marks it confirmed (or does nothing if the waitlist is empty). -/
def promote_head (db : DB) (tripId : Nat) : DB :=
  match waitlisted db tripId with
  | [] => db
  | s :: _ => saveSignupRow db { s with on_trip := true }

/-- `signup.save()` with the promote-on-withdraw side effect.  Modelled
from the spec: the signal handlers are not under `src/`; §4.1/§4.4 say
that un-confirming a signup triggers promotion of the waitlist head
unless the `skip_signals` bypass flag is set (the flag is set by
`AdminTripSignupsView.update_signups`, line 579 in `ws/views.py`). -/
def saveSignup (db : DB) (s : SignUp) : DB :=
  let wasOnTrip :=
    match getSignup db s.id with
    | some old => old.on_trip
    | none => false
  let db' := saveSignupRow db s
  if wasOnTrip && !s.on_trip && !s.skip_signals then promote_head db' s.trip
  else db'

/-- `signup.delete()` with the promote-on-withdraw side effect of §4.1,
gated by the same `skip_signals` bypass flag (spec §9: the Batch
Reconciler explicitly suppresses this post-condition). -/
def deleteSignup (db : DB) (s : SignUp) : DB :=
  let db' := deleteSignupRow db s.id
  if s.on_trip && !s.skip_signals then promote_head db' s.trip
  else db'

/-- Largest rank currently on the trip's waitlist (0 when empty), used to
append at the tail. -/
def tailRank (db : DB) (tripId : Nat) : Int :=
  (db.signups.filter (fun u => u.trip == tripId && !u.on_trip)).foldr
    (fun u m => match u.order with | some r => max m r | none => m) 0

/-- Modelled from the spec: `ws.utils.signups.trip_or_wait` (§4.2
`place`) is not under `src/`.  If the trip must be open and is not, no
placement happens; otherwise, if the current confirmed count is below
capacity the signup is confirmed, else it is appended to the waitlist
tail (rank = current max waitlist rank + 1).  Returns the updated store
together with the saved signup object (the Python object is mutated in
place and reused by the caller). -/
def trip_or_wait (db : DB) (s : SignUp) (trip_must_be_open : Bool) :
    DB × SignUp :=
  match getTrip db s.trip with
  | none => (db, s)
  | some t =>
    if trip_must_be_open && !t.signups_open then (db, s)
    else if confirmedCount db s.trip < t.maximum_participants.toNat then
      let s' := { s with on_trip := true }
      (saveSignup db s', s')
    else
      let s' := { s with on_trip := false, order := some (tailRank db s.trip + 1) }
      (saveSignup db s', s')

/-- Modelled from the spec: `ws.utils.signups.next_in_order` (§4.3
`reorder`, as used by §4.4 step 4) is not under `src/`: it assigns the
signup the sequential rank equal to its position in the instruction
sequence and saves it. -/
def next_in_order (db : DB) (s : SignUp) (ord : Nat) : DB × SignUp :=
  let s' := { s with order := some (ord : Int) }
  (saveSignup db s', s')

/-- First loop of `AdminTripSignupsView.update_signups`: each signup of
the instruction list is marked `on_trip = false` with `skip_signals =
true` and saved.  Returns the updated store and the updated (mutated in
place) instruction objects. -/
def clearPhase : DB → List (SignUp × Bool) → DB × List (SignUp × Bool)
  | db, [] => (db, [])
  | db, (s, remove) :: rest =>
    let s' := { s with on_trip := false, skip_signals := true }
    let db' := saveSignup db s'
    let res := clearPhase db' rest
    (res.1, (s', remove) :: res.2)

/-- Second loop of `AdminTripSignupsView.update_signups`
(`for order, (signup, remove) in enumerate(signups)`): instructions
flagged for removal delete their signup; every other signup is placed by
`trip_or_wait(trip_must_be_open=False)` and then given rank `order` by
`next_in_order`. -/
def rePlace : DB → Nat → List (SignUp × Bool) → DB
  | db, _, [] => db
  | db, ord, (s, remove) :: rest =>
    if remove then rePlace (deleteSignup db s) (ord + 1) rest
    else
      let p := trip_or_wait db s false
      let q := next_in_order p.1 p.2 ord
      rePlace q.1 (ord + 1) rest

/-- `AdminTripSignupsView.update_signups`: clear every listed signup,
then delete or re-place the instructions in the caller-supplied order. -/
def update_signups (db : DB) (entries : List (SignUp × Bool)) : DB :=
  let c := clearPhase db entries
  rePlace c.1 0 c.2

/-- One POSTed signup dict, as read by `AdminTripSignupsView.to_objects`.
`id` is `none` when the key is absent (`signup_dict['id']` then raises
`KeyError`), `some none` when the value is JSON `null`, and
`some (some pk)` when it is a number.  `deleted` is read with `.get`
(absent key is falsy).  `participant` carries the nested participant id
of a new-participant entry. -/
structure SignupDict where
  id : Option (Option Nat)
  deleted : Option Bool
  participant : Option Nat
  deriving Repr, DecidableEq

/-- The exception raised by the `par_id = signup['participant']['id']`
line of `AdminTripSignupsView.to_objects`: the name `signup` is the
previous iteration's `SignUp` object (subscripting it raises
`TypeError`), or is unbound on the first such iteration
(`UnboundLocalError`, a `NameError`).  The source evidently meant
`signup_dict['participant']['id']`. -/
def newParticipantCrash : Option SignUp → PyErr
  | some _ => .typeError
  | none => .nameError

/-- `AdminTripSignupsView.to_objects`: convert the POSTed dicts to
`(signup, remove)` pairs.  The second argument threads the generator's
`signup` variable across iterations (last bound value). -/
def to_objects (db : DB) :
    List SignupDict → Option SignUp → Except PyErr (List (SignUp × Bool))
  | [], _ => .ok []
  | d :: rest, lastSignup =>
    let remove := d.deleted.getD false
    match d.id with
    | none => .error .keyError
    | some (some pk) =>
      if pk == 0 then
        if remove then to_objects db rest lastSignup
        else .error (newParticipantCrash lastSignup)
      else
        match getSignup db pk with
        | none => .error .objectDoesNotExist
        | some s =>
          match to_objects db rest (some s) with
          | .error e => .error e
          | .ok tail => .ok ((s, remove) :: tail)
    | some none =>
      if remove then to_objects db rest lastSignup
      else .error (newParticipantCrash lastSignup)

/-- `trip.full_clean()` on the capacity field.  Modelled from the spec:
the model validators are not under `src/`; §3 requires `capacity` to be a
positive integer and §7 names `CapacityValidationError` for, e.g., a
negative capacity. -/
def tripCleanOk (t : Trip) : Bool :=
  0 < t.maximum_participants

/-- `AdminTripSignupsView.update`: if a (truthy) new capacity was posted,
assign it, validate (`full_clean` raises before `trip.save()` runs), and
save; then run `update_signups`.  Returns the resulting store together
with the exception, if one was raised (the store component is the state
at raise time, which the caught-inside-`transaction.atomic` path
commits). -/
def update (db : DB) (trip : Trip) (entries : List (SignUp × Bool))
    (maximum_participants : Option Int) : DB × Option PyErr :=
  match maximum_participants with
  | some v =>
    if v == 0 then (update_signups db entries, none)
    else
      let trip' := { trip with maximum_participants := v }
      if tripCleanOk trip' then
        (update_signups (saveTrip db trip') entries, none)
      else (db, some .validationError)
  | none => (update_signups db entries, none)

/-- The request body consumed by `AdminTripSignupsView.post`:
`postdata.get('signups', [])` and
`postdata.get('maximum_participants')` (`none` stands for an absent key
or a JSON `null`, both falsy). -/
structure PostData where
  signups : List SignupDict
  maximum_participants : Option Int
  deriving Repr, DecidableEq

/-- `AdminTripSignupsView.post`: fetch the trip, parse the instructions
(`to_objects` is forced by `list(...)` before the transaction and is
read-only), then apply `update` inside `transaction.atomic()`.  Returns
the final observable store and the response: `.ok` for the empty JSON
success, `.error` for the 400 `Bad request` paths (`KeyError`,
`ObjectDoesNotExist`, `ValidationError`) and for the uncaught 500 crash
of the new-participant branch. -/
def adminPost (db : DB) (tripId : Nat) (postdata : PostData) :
    DB × Except PyErr Unit :=
  match getTrip db tripId with
  | none => (db, .error .objectDoesNotExist)
  | some trip =>
    match to_objects db postdata.signups none with
    | .error e => (db, .error e)
    | .ok entries =>
      match update db trip entries postdata.maximum_participants with
      | (db', none) => (db', .ok ())
      | (db', some e) => (db', .error e)

/-- Modelled from the spec: the Revision Guard (§4.5 `checkAndIncrement`)
is not under `src/` — only migration `0043_trip_edit_revision` declaring
`Trip.edit_revision` ("An incremented integer, to avoid simultaneous
edits to the trip") is.  §4.4/§4.5: a structural edit first compares the
caller's believed revision with the trip's current one. -/
def checkRevision (db : DB) (tripId : Nat) (believed : Nat) : Bool :=
  match getTrip db tripId with
  | some t => believed == t.edit_revision
  | none => false

/-- Modelled from the spec: the commit step of §4.4 increments the
trip's `edit_revision`. -/
def bumpRevision (db : DB) (tripId : Nat) : DB :=
  match getTrip db tripId with
  | some t => saveTrip db { t with edit_revision := t.edit_revision + 1 }
  | none => db

/-- Rejection reasons of a guarded batch edit: the optimistic-concurrency
failure of §4.5, or an error of the underlying view. -/
inductive GuardErr where
  | concurrentEditError
  | viewError (e : PyErr)
  deriving Repr, DecidableEq

/-- Modelled from the spec: the batch-reconciliation endpoint behind the
Revision Guard (§4.4 steps 1 and 5; the guard code is not under `src/`).
A stale believed revision aborts with `ConcurrentEditError` before
anything runs; a successful run increments `edit_revision` at commit. -/
def adminPostGuarded (db : DB) (tripId : Nat) (believed : Nat)
    (postdata : PostData) : DB × Except GuardErr Unit :=
  if !checkRevision db tripId believed then (db, .error .concurrentEditError)
  else
    match adminPost db tripId postdata with
    | (db', .ok _) => (bumpRevision db' tripId, .ok ())
    | (db', .error e) => (db', .error (.viewError e))

/-- The JSON answer of `CheckTripOverflowView.response_dict`, abstracted
to its observable content: the CSS class (`msg_type`) and the ordered
signups named in the message. -/
inductive OverflowResp where
  | clear
  | info (bumped : List SignUp)
  | warning (bumped : List SignUp)
  deriving Repr, DecidableEq

/-- Python slice `l[i:]` for a possibly negative integer index. -/
def pySliceFrom {α : Type} (i : Int) (l : List α) : List α :=
  if 0 ≤ i then l.drop i.toNat else l.drop ((l.length : Int) + i).toNat

/-- `CheckTripOverflowView.response_dict`: a pure preview of the effect
of changing `maximum_participants`.  `diff` compares the proposed value
with the current *confirmed count*; a positive `diff` with a nonempty
waitlist prefix reports the first `diff` waitlisted signups as promoted
(`info`), a negative `diff` reports `on_trip[max_participants:]` as
displaced (`warning`), anything else reports nothing. -/
def response_dict (db : DB) (trip : Trip) (max_participants : Int) :
    OverflowResp :=
  let on_trip := onTripList db trip.id
  let diff : Int := max_participants - on_trip.length
  let wl := waitlisted db trip.id
  if 0 < diff && !(wl.take diff.toNat).isEmpty then .info (wl.take diff.toNat)
  else if diff < 0 then .warning (pySliceFrom max_participants on_trip)
  else .clear

/-- The two form-level rejections of `SignUpView.form_valid`. -/
inductive SignupFormErr where
  | alreadySignedUp
  | signupsClosed
  deriving Repr, DecidableEq

/-- `SignUpView.form_valid`: reject with "Already signed up!" when the
participant already has a signup for the trip, then with "Signups aren't
open!" when the trip is closed; otherwise the `CreateView` saves the new
signup row.  The trip object comes from the posted form; the caller
relates it to the store. -/
def form_valid (db : DB) (signup : SignUp) (t : Trip) :
    Except SignupFormErr DB :=
  if db.signups.any (fun s => s.participant == signup.participant && s.trip == signup.trip) then
    .error .alreadySignedUp
  else if !t.signups_open then .error .signupsClosed
  else .ok (saveSignupRow db signup)

/-- `LotteryPairingMixin.paired_par`:
`participant.lotteryinfo.paired_with`, or `None` when the participant has
no lottery info. -/
def paired_par (db : DB) (p : Nat) : Option Nat :=
  match db.lotteryinfos.find? (fun li => li.participant == p) with
  | some li => li.paired_with
  | none => none

/-- `LotteryPairingMixin.reciprocally_paired`: the participant names a
partner whose own lottery info names the participant back. -/
def reciprocally_paired (db : DB) (p : Nat) : Bool :=
  match paired_par db p with
  | some q =>
    match db.lotteryinfos.find? (fun li => li.participant == q) with
    | some li => li.paired_with == some p
    | none => false
  | none => false

/-- `LotteryPreferencesView.ranked_signups`: the participant's signups
for future lottery-mode trips, ordered by `('order', 'time_created')`. -/
def ranked_signups (db : DB) (p : Nat) (today : Nat) : List SignUp :=
  sortLe wlLe (db.signups.filter (fun s =>
    s.participant == p &&
      (match getTrip db s.trip with
       | some t => t.algorithm == "lottery" && today < t.trip_date
       | none => false)))

/-- `SignUp.objects.get(participant=paired_par, trip=trip)`:
`.ok none` models the caught `ObjectDoesNotExist`, while duplicate rows
raise the uncaught `MultipleObjectsReturned`. -/
def getPairSignup (db : DB) (q tripId : Nat) : Except PyErr (Option SignUp) :=
  match db.signups.filter (fun s => s.participant == q && s.trip == tripId) with
  | [] => .ok none
  | [s] => .ok (some s)
  | _ :: _ :: _ => .error .multipleObjectsReturned

/-- The loop of `LotteryPreferencesView.handle_paired_signups`: for each
ranked signup, overwrite the partner's same-trip signup's `order` when it
exists, else record an advisory warning message (the accumulator collects
the trip ids named in the messages). -/
def handlePairedLoop : DB → Nat → List SignUp → List Nat →
    Except PyErr (DB × List Nat)
  | db, _, [], warns => .ok (db, warns.reverse)
  | db, q, s :: rest, warns =>
    match getPairSignup db q s.trip with
    | .error e => .error e
    | .ok none => handlePairedLoop db q rest (s.trip :: warns)
    | .ok (some ps) =>
      handlePairedLoop (saveSignup db { ps with order := s.order }) q rest warns

/-- `LotteryPreferencesView.handle_paired_signups`: a no-op unless the
participant is reciprocally paired; otherwise synchronize the partner's
ranks over the participant's ranked future lottery signups. -/
def handle_paired_signups (db : DB) (p : Nat) (today : Nat) :
    Except PyErr (DB × List Nat) :=
  if !reciprocally_paired db p then .ok (db, [])
  else
    match paired_par db p with
    | some q => handlePairedLoop db q (ranked_signups db p today) []
    | none => .ok (db, [])

/-! Concrete stores used by the witnesses and counterexamples. -/

/-- A lottery trip with room for two. -/
def exTrip : Trip :=
  { id := 1, maximum_participants := 2, signups_open := true,
    algorithm := "lottery", trip_date := 10, edit_revision := 0 }

/-- Confirmed signup of participant 11. -/
def exS1 : SignUp :=
  { id := 1, participant := 11, trip := 1, on_trip := true, order := none,
    time_created := 1 }

/-- Confirmed signup of participant 12. -/
def exS2 : SignUp :=
  { id := 2, participant := 12, trip := 1, on_trip := true, order := none,
    time_created := 2 }

/-- Waitlisted signup of participant 13, rank 1. -/
def exS3 : SignUp :=
  { id := 3, participant := 13, trip := 1, on_trip := false, order := some 1,
    time_created := 3 }

/-- Waitlisted signup of participant 14, rank 2. -/
def exS4 : SignUp :=
  { id := 4, participant := 14, trip := 1, on_trip := false, order := some 2,
    time_created := 4 }

/-- The running example store: capacity 2, `[exS1, exS2]` confirmed,
`[exS3, exS4]` waitlisted, in that order. -/
def exDB : DB :=
  { trips := [exTrip], signups := [exS1, exS2, exS3, exS4], lotteryinfos := [] }

/-- `exTrip` with capacity 10, for the overflow preview. -/
def exTrip10 : Trip := { exTrip with maximum_participants := 10 }

/-- Store for the overflow preview: capacity 10, two confirmed, one
waitlisted. -/
def exDB10 : DB :=
  { trips := [exTrip10], signups := [exS1, exS2, exS3], lotteryinfos := [] }

/-- A closed trip (signups not open), id 2. -/
def exTripClosed : Trip :=
  { id := 2, maximum_participants := 2, signups_open := false,
    algorithm := "fcfs", trip_date := 10, edit_revision := 0 }

/-- A not-yet-saved signup of participant 15 for the closed trip. -/
def exS5 : SignUp :=
  { id := 5, participant := 15, trip := 2, on_trip := false, order := none,
    time_created := 5 }

/-- Store with both the open and the closed trip. -/
def exDB2 : DB :=
  { trips := [exTrip, exTripClosed], signups := [exS1, exS2, exS3, exS4],
    lotteryinfos := [] }

/-- Two future lottery trips for the pairing example. -/
def exLotTripA : Trip :=
  { id := 7, maximum_participants := 5, signups_open := true,
    algorithm := "lottery", trip_date := 20, edit_revision := 0 }

/-- Second future lottery trip for the pairing example. -/
def exLotTripB : Trip :=
  { id := 8, maximum_participants := 5, signups_open := true,
    algorithm := "lottery", trip_date := 21, edit_revision := 0 }

/-- Participant 21's ranked signup for trip 7. -/
def exP1A : SignUp :=
  { id := 11, participant := 21, trip := 7, on_trip := false, order := some 0,
    time_created := 11 }

/-- Participant 21's ranked signup for trip 8. -/
def exP1B : SignUp :=
  { id := 12, participant := 21, trip := 8, on_trip := false, order := some 1,
    time_created := 12 }

/-- Participant 22's signup for trip 7 (to be synchronized). -/
def exP2A : SignUp :=
  { id := 13, participant := 22, trip := 7, on_trip := false, order := some 9,
    time_created := 13 }

/-- Store for the pairing example: 21 and 22 reciprocally paired; 22 has
no signup for trip 8. -/
def exDBPair : DB :=
  { trips := [exLotTripA, exLotTripB], signups := [exP1A, exP1B, exP2A],
    lotteryinfos :=
      [{ participant := 21, paired_with := some 22 },
       { participant := 22, paired_with := some 21 }] }

/-! Derived notions used to state and prove the batch-reconciliation and
pairing properties. -/

/-- The surviving, non-removed signups of an instruction list, in the
supplied order. -/
def survivors (entries : List (SignUp × Bool)) : List SignUp :=
  (entries.filter (fun e => !e.2)).map (fun e => e.1)

/-- Lookup of a pending per-row outcome by primary key. -/
def lookupOutcome (out : List (Nat × Option SignUp)) (pk : Nat) :
    Option (Option SignUp) :=
  (out.find? (fun p => p.1 == pk)).map (fun p => p.2)

/-- Apply per-row outcomes to a row list: `some none` deletes the row,
`some (some r')` replaces it, no outcome keeps it. -/
def applyOutcomes (out : List (Nat × Option SignUp)) (rows : List SignUp) :
    List SignUp :=
  rows.filterMap (fun r =>
    match lookupOutcome out r.id with
    | some none => none
    | some (some r') => some r'
    | none => some r)

/-- The per-row outcomes of the re-place loop over a trip with `cap`
seats, starting from `c` already-confirmed signups and instruction index
`ord`: removed entries are deleted; each survivor is confirmed exactly
when a seat is left and is assigned rank `ord`. -/
def rePlaceOutcomes (cap : Nat) :
    Nat → Nat → List (SignUp × Bool) → List (Nat × Option SignUp)
  | _, _, [] => []
  | c, ord, (s, remove) :: rest =>
    if remove then (s.id, none) :: rePlaceOutcomes cap c (ord + 1) rest
    else
      (s.id, some { s with on_trip := decide (c < cap), order := some (ord : Int) })
        :: rePlaceOutcomes cap (if c < cap then c + 1 else c) (ord + 1) rest

/-- The effect of one pairing synchronization on a row: a signup of the
partner `q` whose trip appears among the participant's ranked signups
takes that ranked signup's `order`; every other row is untouched. -/
def pairSync (ranked : List SignUp) (q : Nat) (r : SignUp) : SignUp :=
  if r.participant == q then
    match ranked.find? (fun s => s.trip == r.trip) with
    | some s => { r with order := s.order }
    | none => r
  else r

/-- The ranked trips for which the partner `q` has no signup — the
advisory "hasn't signed up" notices. -/
def missingPairTrips (db : DB) (q : Nat) (ranked : List SignUp) : List Nat :=
  (ranked.filter (fun s =>
    (db.signups.filter (fun r => r.participant == q && r.trip == s.trip)).isEmpty)).map
    (fun s => s.trip)

/-- Overwrite one trip's `signups_open` flag (used to state that
administrator placement ignores it). -/
def setOpen (db : DB) (tripId : Nat) (b : Bool) : DB :=
  { db with trips := db.trips.map (fun t =>
      if t.id == tripId then { t with signups_open := b } else t) }

/-- Replace every row with primary key `i` by `v`. -/
def replaceRow (i : Nat) (v : SignUp) (l : List SignUp) : List SignUp :=
  l.map (fun u => if u.id == i then v else u)

/-- Remove every row with primary key `i`. -/
def removeRow (i : Nat) (l : List SignUp) : List SignUp :=
  l.filter (fun u => !(u.id == i))

/-- A signup as saved by the clear phase: off the trip, signals
suppressed. -/
def clearedOf (s : SignUp) : SignUp :=
  { s with on_trip := false, skip_signals := true }

/-- The final rows of the surviving instructions, in the supplied order:
the `j`-th survivor is confirmed exactly when a seat is left and carries
its instruction index as rank. -/
def placedRows (cap : Nat) :
    Nat → Nat → List (SignUp × Bool) → List SignUp
  | _, _, [] => []
  | c, ord, (s, remove) :: rest =>
    if remove then placedRows cap c (ord + 1) rest
    else
      { s with on_trip := decide (c < cap), order := some (ord : Int) }
        :: placedRows cap (if c < cap then c + 1 else c) (ord + 1) rest

/-! Frame lemmas: signup-level operations never touch the trip table. -/

theorem saveSignupRow_trips (db : DB) (s : SignUp) :
    (saveSignupRow db s).trips = db.trips := by
  unfold saveSignupRow; split <;> rfl

theorem deleteSignupRow_trips (db : DB) (pk : Nat) :
    (deleteSignupRow db pk).trips = db.trips := rfl

theorem promote_head_trips (db : DB) (tid : Nat) :
    (promote_head db tid).trips = db.trips := by
  unfold promote_head
  split
  · rfl
  · exact saveSignupRow_trips _ _

theorem saveSignup_trips (db : DB) (s : SignUp) :
    (saveSignup db s).trips = db.trips := by
  unfold saveSignup
  split <;> dsimp only <;> split <;>
    first
      | (rw [promote_head_trips]; exact saveSignupRow_trips _ _)
      | exact saveSignupRow_trips _ _

theorem deleteSignup_trips (db : DB) (s : SignUp) :
    (deleteSignup db s).trips = db.trips := by
  unfold deleteSignup
  dsimp only
  split
  · rw [promote_head_trips]; rfl
  · rfl

theorem trip_or_wait_trips (db : DB) (s : SignUp) (b : Bool) :
    (trip_or_wait db s b).1.trips = db.trips := by
  unfold trip_or_wait
  split
  · rfl
  · split
    · rfl
    · split
      · exact saveSignup_trips _ _
      · exact saveSignup_trips _ _

theorem next_in_order_trips (db : DB) (s : SignUp) (ord : Nat) :
    (next_in_order db s ord).1.trips = db.trips := by
  unfold next_in_order
  exact saveSignup_trips _ _

theorem clearPhase_trips (es : List (SignUp × Bool)) : ∀ db : DB,
    (clearPhase db es).1.trips = db.trips := by
  induction es with
  | nil => intro db; rfl
  | cons e rest ih =>
    intro db
    obtain ⟨s, remove⟩ := e
    simp only [clearPhase]
    rw [ih, saveSignup_trips]

theorem rePlace_trips (es : List (SignUp × Bool)) : ∀ (db : DB) (ord : Nat),
    (rePlace db ord es).trips = db.trips := by
  induction es with
  | nil => intro db ord; rfl
  | cons e rest ih =>
    intro db ord
    obtain ⟨s, remove⟩ := e
    simp only [rePlace]
    split
    · rw [ih, deleteSignup_trips]
    · rw [ih, next_in_order_trips, trip_or_wait_trips]

theorem update_signups_trips (db : DB) (es : List (SignUp × Bool)) :
    (update_signups db es).trips = db.trips := by
  unfold update_signups
  rw [rePlace_trips, clearPhase_trips]

/-! Row lookup through replacement and removal. -/

theorem find?_cons_pos' {α : Type} (p : α → Bool) (a : α) (l : List α)
    (h : p a = true) : (a :: l).find? p = some a := by
  simp [List.find?, h]

theorem find?_cons_neg' {α : Type} (p : α → Bool) (a : α) (l : List α)
    (h : p a = false) : (a :: l).find? p = l.find? p := by
  simp [List.find?, h]

theorem find?_replace_isSome_eq {α : Type} (idOf : α → Nat) (v : α) (i : Nat)
    (hv : idOf v = i) :
    ∀ l : List α, (l.find? (fun u => idOf u == i)).isSome →
      (l.map (fun u => if idOf u == i then v else u)).find?
        (fun u => idOf u == i) = some v := by
  intro l
  induction l with
  | nil => intro h; simp [List.find?] at h
  | cons u rest ih =>
    intro h
    by_cases hu : idOf u = i
    · simp only [List.map_cons, if_pos (beq_iff_eq.mpr hu)]
      exact find?_cons_pos' _ v _ (beq_iff_eq.mpr hv)
    · have hb : (idOf u == i) = false := beq_eq_false_iff_ne.mpr hu
      simp only [List.map_cons, hb, Bool.false_eq_true, if_false]
      rw [find?_cons_neg' _ u _ hb, ih]
      rw [find?_cons_neg' _ u _ hb] at h
      exact h

theorem find?_replace_ne {α : Type} (idOf : α → Nat) (v : α) (i pk : Nat)
    (hv : idOf v = i) (hne : pk ≠ i) :
    ∀ l : List α,
      (l.map (fun u => if idOf u == i then v else u)).find?
        (fun u => idOf u == pk) = l.find? (fun u => idOf u == pk) := by
  intro l
  induction l with
  | nil => rfl
  | cons u rest ih =>
    by_cases hu : idOf u = i
    · have hpu : (idOf u == pk) = false := by
        refine beq_eq_false_iff_ne.mpr ?_
        rw [hu]; exact fun h => hne h.symm
      have hpv : (idOf v == pk) = false := by
        refine beq_eq_false_iff_ne.mpr ?_
        rw [hv]; exact fun h => hne h.symm
      simp only [List.map_cons, if_pos (beq_iff_eq.mpr hu)]
      rw [find?_cons_neg' _ v _ hpv, find?_cons_neg' _ u _ hpu, ih]
    · have hb : (idOf u == i) = false := beq_eq_false_iff_ne.mpr hu
      simp only [List.map_cons, hb, Bool.false_eq_true, if_false]
      by_cases hpu : idOf u = pk
      · rw [find?_cons_pos' (fun x => idOf x == pk) u _ (beq_iff_eq.mpr hpu),
          find?_cons_pos' (fun x => idOf x == pk) u _ (beq_iff_eq.mpr hpu)]
      · rw [find?_cons_neg' (fun x => idOf x == pk) u _ (beq_eq_false_iff_ne.mpr hpu),
          find?_cons_neg' (fun x => idOf x == pk) u _ (beq_eq_false_iff_ne.mpr hpu), ih]

theorem find?_filterNe_self {α : Type} (idOf : α → Nat) (i : Nat)
    (l : List α) :
    (l.filter (fun u => !(idOf u == i))).find? (fun u => idOf u == i) = none := by
  rw [List.find?_eq_none]
  intro x hx
  have := (List.mem_filter.mp hx).2
  simpa using this

theorem find?_filterNe_ne {α : Type} (idOf : α → Nat) (i pk : Nat)
    (hne : pk ≠ i) :
    ∀ l : List α,
      (l.filter (fun u => !(idOf u == i))).find? (fun u => idOf u == pk)
        = l.find? (fun u => idOf u == pk) := by
  intro l
  induction l with
  | nil => rfl
  | cons u rest ih =>
    by_cases hu : idOf u = i
    · have hstep : (u :: rest).filter (fun u => !(idOf u == i))
          = rest.filter (fun u => !(idOf u == i)) :=
        List.filter_cons_of_neg (by simp [hu])
      have hpu : (idOf u == pk) = false := by
        refine beq_eq_false_iff_ne.mpr ?_
        rw [hu]; exact fun h => hne h.symm
      rw [hstep, ih, find?_cons_neg' _ u _ hpu]
    · have hstep : (u :: rest).filter (fun u => !(idOf u == i))
          = u :: rest.filter (fun u => !(idOf u == i)) :=
        List.filter_cons_of_pos (by simp [hu])
      rw [hstep]
      by_cases hpu : idOf u = pk
      · rw [find?_cons_pos' (fun x => idOf x == pk) u _ (beq_iff_eq.mpr hpu),
          find?_cons_pos' (fun x => idOf x == pk) u _ (beq_iff_eq.mpr hpu)]
      · rw [find?_cons_neg' (fun x => idOf x == pk) u _ (beq_eq_false_iff_ne.mpr hpu),
          find?_cons_neg' (fun x => idOf x == pk) u _ (beq_eq_false_iff_ne.mpr hpu), ih]

theorem getSignup_id {db : DB} {pk : Nat} {r : SignUp}
    (h : getSignup db pk = some r) : r.id = pk := by
  have := List.find?_some h
  simpa using this

theorem getSignup_mem {db : DB} {pk : Nat} {r : SignUp}
    (h : getSignup db pk = some r) : r ∈ db.signups :=
  List.mem_of_find?_eq_some h

theorem getSignup_saveSignupRow (db : DB) (s : SignUp)
    (h : (getSignup db s.id).isSome) (pk : Nat) :
    getSignup (saveSignupRow db s) pk
      = if pk = s.id then some s else getSignup db pk := by
  have hany : db.signups.any (fun u => u.id == s.id) = true := by
    rw [List.any_eq_true]
    rw [getSignup, List.find?_isSome] at h
    obtain ⟨x, hx, hpx⟩ := h
    exact ⟨x, hx, hpx⟩
  rw [getSignup] at h
  unfold saveSignupRow
  rw [if_pos hany]
  by_cases hpk : pk = s.id
  · subst hpk
    simp only [if_pos rfl]
    show List.find? (fun u => u.id == s.id)
        (db.signups.map (fun u => if u.id == s.id then s else u)) = some s
    exact find?_replace_isSome_eq (fun u => u.id) s s.id rfl db.signups h
  · rw [if_neg hpk]
    show List.find? (fun u => u.id == pk)
        (db.signups.map (fun u => if u.id == s.id then s else u))
      = getSignup db pk
    rw [find?_replace_ne (fun u => u.id) s s.id pk rfl hpk db.signups]
    rfl

theorem getSignup_deleteSignupRow (db : DB) (i pk : Nat) :
    getSignup (deleteSignupRow db i) pk
      = if pk = i then none else getSignup db pk := by
  by_cases hpk : pk = i
  · subst hpk
    simp only [if_pos rfl]
    exact find?_filterNe_self (fun u => u.id) pk db.signups
  · rw [if_neg hpk]
    show List.find? (fun u => u.id == pk)
        (db.signups.filter (fun u => !(u.id == i)))
      = getSignup db pk
    rw [find?_filterNe_ne (fun u => u.id) i pk hpk db.signups]
    rfl

/-! Reductions of `saveSignup` in the situations where the promote signal
cannot fire. -/

theorem saveSignup_of_row_not_confirmed {db : DB} {s : SignUp} {r : SignUp}
    (hrow : getSignup db s.id = some r) (hr : r.on_trip = false) :
    saveSignup db s = saveSignupRow db s := by
  unfold saveSignup
  rw [hrow]
  dsimp only
  rw [hr]
  simp

theorem saveSignup_of_on_trip {db : DB} {s : SignUp}
    (h : s.on_trip = true) :
    saveSignup db s = saveSignupRow db s := by
  unfold saveSignup
  cases hg : getSignup db s.id <;> dsimp only <;> simp [h]

theorem saveSignup_of_skip {db : DB} {s : SignUp}
    (h : s.skip_signals = true) :
    saveSignup db s = saveSignupRow db s := by
  unfold saveSignup
  cases hg : getSignup db s.id <;> dsimp only <;> simp [h]

theorem saveSignup_of_same_on_trip {db : DB} {s : SignUp} {r : SignUp}
    (hrow : getSignup db s.id = some r) (hr : r.on_trip = s.on_trip) :
    saveSignup db s = saveSignupRow db s := by
  unfold saveSignup
  rw [hrow]
  dsimp only
  rw [hr]
  cases h : s.on_trip <;> simp

/-! The error paths of the administrator batch edit. -/

theorem update_error_state {db : DB} {trip : Trip} {es : List (SignUp × Bool)}
    {mp : Option Int} {db' : DB} {e : PyErr}
    (h : update db trip es mp = (db', some e)) : db' = db := by
  unfold update at h
  cases mp with
  | none =>
    dsimp only at h
    exact absurd (congrArg Prod.snd h) (by simp)
  | some v =>
    dsimp only at h
    by_cases hv : (v == 0) = true
    · rw [if_pos hv] at h
      exact absurd (congrArg Prod.snd h) (by simp)
    · rw [if_neg hv] at h
      by_cases hc : tripCleanOk { trip with maximum_participants := v } = true
      · rw [if_pos hc] at h
        exact absurd (congrArg Prod.snd h) (by simp)
      · rw [if_neg hc] at h
        exact (congrArg Prod.fst h).symm

/-- C3: every rejected batch-edit request (malformed instruction, unknown
signup id, crashed new-participant instruction, capacity validation
failure) leaves the store exactly as it was: the trips (hence
`edit_revision` and capacity), the signups (hence the confirmed set and
the waitlist order) are all unchanged. -/
theorem C3_error_paths_leave_state_unchanged (db : DB) (tid : Nat)
    (pd : PostData) (e : PyErr)
    (h : (adminPost db tid pd).2 = .error e) :
    (adminPost db tid pd).1 = db := by
  revert h
  unfold adminPost
  cases hg : getTrip db tid with
  | none => intro h; rfl
  | some trip =>
    dsimp only
    cases hto : to_objects db pd.signups none with
    | error e' => intro h; rfl
    | ok entries =>
      dsimp only
      cases hup : update db trip entries pd.maximum_participants with
      | mk db' oe =>
        cases oe with
        | none => dsimp only; intro h; exact absurd h (by simp)
        | some e' => dsimp only; intro h; exact update_error_state hup

/-- Closed instance of `C3_error_paths_leave_state_unchanged`: a
malformed instruction (missing `id` key) is rejected and the store is
untouched. -/
theorem C3_error_paths_leave_state_unchanged_witness :
    (adminPost exDB 1
        { signups := [{ id := none, deleted := none, participant := none }],
          maximum_participants := none }).1 = exDB :=
  C3_error_paths_leave_state_unchanged exDB 1
    { signups := [{ id := none, deleted := none, participant := none }],
      maximum_participants := none } .keyError rfl

theorem update_some_zero (db : DB) (trip : Trip) (es : List (SignUp × Bool)) :
    update db trip es (some 0) = update db trip es none := rfl

/-- C10: in the administrator batch edit, a posted `maximum_participants`
that is absent, `null`, or `0` is falsy: the request behaves exactly as
if no capacity had been posted at all, and the trip table (hence the
capacity field) is left untouched — no validation, no error, no save. -/
theorem C10_falsy_capacity_is_frame_preserving (db : DB) (tid : Nat)
    (sd : List SignupDict) (mp : Option Int)
    (hmp : mp = none ∨ mp = some 0) :
    adminPost db tid { signups := sd, maximum_participants := mp }
      = adminPost db tid { signups := sd, maximum_participants := none }
    ∧ (adminPost db tid
        { signups := sd, maximum_participants := mp }).1.trips = db.trips := by
  have heq : adminPost db tid { signups := sd, maximum_participants := mp }
      = adminPost db tid { signups := sd, maximum_participants := none } := by
    rcases hmp with h | h <;> subst h
    · rfl
    · unfold adminPost
      cases hg : getTrip db tid with
      | none => rfl
      | some trip =>
        dsimp only
        cases hto : to_objects db sd none with
        | error e => rfl
        | ok entries =>
          dsimp only
          rw [update_some_zero]
  refine ⟨heq, ?_⟩
  rw [heq]
  unfold adminPost
  cases hg : getTrip db tid with
  | none => rfl
  | some trip =>
    dsimp only
    cases hto : to_objects db sd none with
    | error e => rfl
    | ok entries =>
      dsimp only
      show (update_signups db entries).trips = db.trips
      exact update_signups_trips db entries

/-- Closed instance of `C10_falsy_capacity_is_frame_preserving`: posting
capacity `0` with an empty instruction list behaves like posting no
capacity and leaves the trip table unchanged. -/
theorem C10_falsy_capacity_is_frame_preserving_witness :
    adminPost exDB 1 { signups := [], maximum_participants := some 0 }
      = adminPost exDB 1 { signups := [], maximum_participants := none }
    ∧ (adminPost exDB 1
        { signups := [], maximum_participants := some 0 }).1.trips = exDB.trips :=
  C10_falsy_capacity_is_frame_preserving exDB 1 [] (some 0) (Or.inr rfl)

/-! The revision guard. -/

theorem getTrip_id {db : DB} {pk : Nat} {t : Trip}
    (h : getTrip db pk = some t) : t.id = pk := by
  have := List.find?_some h
  simpa using this

theorem getTrip_eq_of_trips_eq {db db' : DB} (h : db'.trips = db.trips)
    (pk : Nat) : getTrip db' pk = getTrip db pk := by
  unfold getTrip
  rw [h]

theorem getTrip_saveTrip_self {db : DB} {t t' : Trip} {pk : Nat}
    (hg : getTrip db pk = some t) (hid : t'.id = t.id) :
    getTrip (saveTrip db t') pk = some t' := by
  have hpk : t.id = pk := getTrip_id hg
  have hsome : (db.trips.find? (fun u => u.id == pk)).isSome := by
    rw [show db.trips.find? (fun u => u.id == pk) = getTrip db pk from rfl, hg]
    rfl
  show (db.trips.map (fun u => if u.id == t'.id then t' else u)).find?
      (fun u => u.id == pk) = some t'
  rw [show t'.id = pk from hid.trans hpk]
  exact find?_replace_isSome_eq (fun u => u.id) t' pk (hid.trans hpk)
    db.trips hsome

theorem bumpRevision_getTrip {db : DB} {tid : Nat} {t : Trip}
    (hg : getTrip db tid = some t) :
    getTrip (bumpRevision db tid) tid
      = some { t with edit_revision := t.edit_revision + 1 } := by
  unfold bumpRevision
  rw [hg]
  exact getTrip_saveTrip_self hg rfl

theorem update_ok_getTrip {db db1 : DB} {tid : Nat} {t : Trip}
    {es : List (SignUp × Bool)} {mp : Option Int}
    (hg : getTrip db tid = some t) (hup : update db t es mp = (db1, none)) :
    ∃ v, getTrip db1 tid = some { t with maximum_participants := v } := by
  unfold update at hup
  cases mp with
  | none =>
    dsimp only at hup
    have hdb : db1 = update_signups db es := (congrArg Prod.fst hup).symm
    refine ⟨t.maximum_participants, ?_⟩
    rw [hdb, getTrip_eq_of_trips_eq (update_signups_trips db es) tid, hg]
  | some v =>
    dsimp only at hup
    by_cases hv : (v == 0) = true
    · rw [if_pos hv] at hup
      have hdb : db1 = update_signups db es := (congrArg Prod.fst hup).symm
      refine ⟨t.maximum_participants, ?_⟩
      rw [hdb, getTrip_eq_of_trips_eq (update_signups_trips db es) tid, hg]
    · rw [if_neg hv] at hup
      by_cases hc : tripCleanOk { t with maximum_participants := v } = true
      · rw [if_pos hc] at hup
        have hdb : db1
            = update_signups (saveTrip db { t with maximum_participants := v }) es :=
          (congrArg Prod.fst hup).symm
        refine ⟨v, ?_⟩
        rw [hdb,
          getTrip_eq_of_trips_eq (update_signups_trips
            (saveTrip db { t with maximum_participants := v }) es) tid]
        exact getTrip_saveTrip_self hg rfl
      · rw [if_neg hc] at hup
        exact absurd (congrArg Prod.snd hup) (by simp)

theorem adminPost_ok_getTrip {db : DB} {tid : Nat} {pd : PostData} {t : Trip}
    {db' : DB} (hg : getTrip db tid = some t)
    (h : adminPost db tid pd = (db', .ok ())) :
    ∃ v, getTrip db' tid = some { t with maximum_participants := v } := by
  unfold adminPost at h
  rw [hg] at h
  dsimp only at h
  cases hto : to_objects db pd.signups none with
  | error e => rw [hto] at h; exact absurd (congrArg Prod.snd h) (by simp)
  | ok entries =>
    rw [hto] at h
    dsimp only at h
    cases hup : update db t entries pd.maximum_participants with
    | mk db1 oe =>
      rw [hup] at h
      cases oe with
      | none =>
        dsimp only at h
        have hdb : db' = db1 := (congrArg Prod.fst h).symm
        subst hdb
        exact update_ok_getTrip hg hup
      | some e =>
        dsimp only at h
        exact absurd (congrArg Prod.snd h) (by simp)

/-- C1: the guarded batch edit.  A believed revision different from the
trip's current `edit_revision` aborts with `ConcurrentEditError` and the
store is returned exactly as it was; every successful run yields a store
in which the trip's `edit_revision` has been incremented by one. -/
theorem C1_revision_guard (db : DB) (tid : Nat) (t : Trip) (believed : Nat)
    (pd : PostData) (hg : getTrip db tid = some t) :
    (believed ≠ t.edit_revision →
      adminPostGuarded db tid believed pd = (db, .error .concurrentEditError))
    ∧ (∀ db', adminPostGuarded db tid believed pd = (db', .ok ()) →
      ∃ t', getTrip db' tid = some t'
        ∧ t'.edit_revision = t.edit_revision + 1) := by
  constructor
  · intro hne
    unfold adminPostGuarded checkRevision
    rw [hg]
    dsimp only
    have hb : (believed == t.edit_revision) = false := beq_eq_false_iff_ne.mpr hne
    rw [hb]
    rfl
  · intro db' h
    unfold adminPostGuarded at h
    cases hchk : checkRevision db tid believed with
    | false =>
      rw [hchk] at h
      rw [if_pos (by simp)] at h
      exact absurd (congrArg Prod.snd h) (by simp)
    | true =>
      rw [hchk] at h
      rw [if_neg (by simp)] at h
      cases hpost : adminPost db tid pd with
      | mk db1 r =>
        rw [hpost] at h
        cases r with
        | ok u =>
          dsimp only at h
          obtain ⟨v, hv⟩ := adminPost_ok_getTrip hg hpost
          have hdb : db' = bumpRevision db1 tid := (congrArg Prod.fst h).symm
          subst hdb
          exact ⟨_, bumpRevision_getTrip hv, rfl⟩
        | error e =>
          dsimp only at h
          exact absurd (congrArg Prod.snd h) (by simp)

/-- Closed instance of `C1_revision_guard`: at the example store (current
revision 0), believed revision 5 is rejected with no mutation, and a
run with the correct believed revision 0 ends with `edit_revision` 1. -/
theorem C1_revision_guard_witness :
    adminPostGuarded exDB 1 5 { signups := [], maximum_participants := none }
      = (exDB, .error .concurrentEditError)
    ∧ ∃ t', getTrip (adminPostGuarded exDB 1 0
        { signups := [], maximum_participants := none }).1 1 = some t'
      ∧ t'.edit_revision = 1 := by
  constructor
  · exact (C1_revision_guard exDB 1 exTrip 5
      { signups := [], maximum_participants := none } rfl).1 (by decide)
  · exact (C1_revision_guard exDB 1 exTrip 0
      { signups := [], maximum_participants := none } rfl).2 _ rfl

/-- C6: a new-participant instruction (`id` null, not removed) crashes
`to_objects` instead of creating a fresh signup: the
`par_id = signup['participant']['id']` line reads the generator variable
`signup` — unbound on a first such instruction (`UnboundLocalError`),
and the previous iteration's `SignUp` object (not subscriptable,
`TypeError`) otherwise.  `post` catches neither, so the request dies with
a 500 and no signup is ever created; the store is untouched. -/
theorem C6_new_participant_instruction_crashes :
    to_objects exDB
        [{ id := some none, deleted := some false, participant := some 99 }] none
      = .error .nameError
    ∧ adminPost exDB 1
        { signups :=
            [{ id := some none, deleted := some false, participant := some 99 }],
          maximum_participants := none }
      = (exDB, .error .nameError)
    ∧ to_objects exDB
        [{ id := some (some 3), deleted := none, participant := none },
         { id := some none, deleted := some false, participant := some 99 }] none
      = .error .typeError := ⟨rfl, rfl, rfl⟩

/-! The capacity-overflow preview. -/

/-- C7 as stated is false: with capacity 10, two confirmed and one
waitlisted signup, the proposed value 5 is *below* the current capacity,
yet the preview reports the waitlisted signup as would-be-promoted
(`info`) instead of reporting displaced confirmed signups — the code
compares the proposed value with the confirmed count, never with the
stored capacity. -/
theorem C7_capacity_comparison_counterexample :
    (5 : Int) < exTrip10.maximum_participants
    ∧ response_dict exDB10 exTrip10 5 = .info [exS3] := ⟨by decide, by decide⟩

/-- C7 (amended): the preview mutates nothing (it is a function of the
store only), and the direction is decided against the *confirmed count*:
a proposed value above the confirmed count with a nonempty waitlist
reports the first `proposed - confirmedCount` waitlisted signups in
waitlist order as promoted, and a proposed value below the confirmed
count reports the lowest-priority confirmed signups beyond the proposed
value as displaced. -/
theorem C7_overflow_preview_vs_confirmed_count (db : DB) (t : Trip)
    (mp : Int) :
    (((onTripList db t.id).length : Int) < mp → waitlisted db t.id ≠ [] →
      response_dict db t mp
        = .info ((waitlisted db t.id).take
            (mp - ((onTripList db t.id).length : Int)).toNat))
    ∧ (0 ≤ mp → mp < ((onTripList db t.id).length : Int) →
      response_dict db t mp
        = .warning ((onTripList db t.id).drop mp.toNat)) := by
  constructor
  · intro hlt hwl
    unfold response_dict
    have hpos : (0 : Int) < mp - ((onTripList db t.id).length : Int) := by omega
    have htn : 0 < (mp - ((onTripList db t.id).length : Int)).toNat := by omega
    have hne : ((waitlisted db t.id).take
        (mp - ((onTripList db t.id).length : Int)).toNat).isEmpty = false := by
      cases hcase : waitlisted db t.id with
      | nil => exact absurd hcase hwl
      | cons w ws =>
        obtain ⟨m, hm⟩ := Nat.exists_eq_succ_of_ne_zero (Nat.pos_iff_ne_zero.mp htn)
        rw [hm, List.take_succ_cons]
        rfl
    rw [if_pos]
    rw [Bool.and_eq_true]
    constructor
    · exact decide_eq_true hpos
    · rw [hne]
      rfl
  · intro h0 hlt
    unfold response_dict
    have hneg : mp - ((onTripList db t.id).length : Int) < 0 := by omega
    rw [if_neg, if_pos hneg]
    · unfold pySliceFrom
      rw [if_pos h0]
    · rw [Bool.and_eq_true]
      rintro ⟨hx, -⟩
      have := of_decide_eq_true hx
      omega

/-- Closed instances of `C7_overflow_preview_vs_confirmed_count` at the
capacity-10 store: proposing 5 (above the confirmed count 2) reports the
single waitlisted signup as promoted; proposing 1 (below the count)
reports the lowest-priority confirmed signup as displaced. -/
theorem C7_overflow_preview_vs_confirmed_count_witness :
    response_dict exDB10 exTrip10 5 = .info ((waitlisted exDB10 1).take 3)
    ∧ response_dict exDB10 exTrip10 1
      = .warning ((onTripList exDB10 1).drop 1) := by
  constructor
  · exact (C7_overflow_preview_vs_confirmed_count exDB10 exTrip10 5).1
      (by decide) (by decide)
  · exact (C7_overflow_preview_vs_confirmed_count exDB10 exTrip10 1).2
      (by decide) (by decide)

/-! Signup placement is determined by the signup table and the trip's
capacity; the `signups_open` flag only matters when the open check is
requested. -/

theorem getSignup_eq_of_signups_eq {db1 db2 : DB}
    (h : db1.signups = db2.signups) (pk : Nat) :
    getSignup db1 pk = getSignup db2 pk := by
  unfold getSignup; rw [h]

theorem waitlisted_eq_of_signups_eq {db1 db2 : DB}
    (h : db1.signups = db2.signups) (tid : Nat) :
    waitlisted db1 tid = waitlisted db2 tid := by
  unfold waitlisted; rw [h]

theorem confirmedCount_eq_of_signups_eq {db1 db2 : DB}
    (h : db1.signups = db2.signups) (tid : Nat) :
    confirmedCount db1 tid = confirmedCount db2 tid := by
  unfold confirmedCount; rw [h]

theorem tailRank_eq_of_signups_eq {db1 db2 : DB}
    (h : db1.signups = db2.signups) (tid : Nat) :
    tailRank db1 tid = tailRank db2 tid := by
  unfold tailRank; rw [h]

theorem saveSignupRow_signups {db : DB} {s : SignUp} :
    (saveSignupRow db s).signups
      = if db.signups.any (fun u => u.id == s.id)
          then db.signups.map (fun u => if u.id == s.id then s else u)
          else db.signups ++ [s] := by
  unfold saveSignupRow; split <;> rfl

theorem saveSignupRow_signups_eq {db1 db2 : DB}
    (h : db1.signups = db2.signups) (s : SignUp) :
    (saveSignupRow db1 s).signups = (saveSignupRow db2 s).signups := by
  rw [saveSignupRow_signups, saveSignupRow_signups, h]

theorem promote_head_signups_eq {db1 db2 : DB}
    (h : db1.signups = db2.signups) (tid : Nat) :
    (promote_head db1 tid).signups = (promote_head db2 tid).signups := by
  unfold promote_head
  rw [waitlisted_eq_of_signups_eq h]
  cases hw : waitlisted db2 tid with
  | nil => exact h
  | cons w ws => exact saveSignupRow_signups_eq h _

theorem saveSignup_signups_eq {db1 db2 : DB}
    (h : db1.signups = db2.signups) (s : SignUp) :
    (saveSignup db1 s).signups = (saveSignup db2 s).signups := by
  unfold saveSignup
  rw [getSignup_eq_of_signups_eq h]
  cases hg : getSignup db2 s.id <;> dsimp only <;> split
  · exact promote_head_signups_eq (saveSignupRow_signups_eq h s) s.trip
  · exact saveSignupRow_signups_eq h s
  · exact promote_head_signups_eq (saveSignupRow_signups_eq h s) s.trip
  · exact saveSignupRow_signups_eq h s

theorem find?_map_of_pred_eq {α : Type} (f : α → α) (p : α → Bool)
    (hf : ∀ u, p (f u) = p u) :
    ∀ l : List α, (l.map f).find? p = (l.find? p).map f := by
  intro l
  induction l with
  | nil => rfl
  | cons u rest ih =>
    cases hu : p u with
    | true =>
      rw [List.map_cons, find?_cons_pos' p (f u) _ ((hf u).trans hu),
        find?_cons_pos' p u _ hu]
      rfl
    | false =>
      rw [List.map_cons, find?_cons_neg' p (f u) _ ((hf u).trans hu),
        find?_cons_neg' p u _ hu, ih]

theorem getTrip_setOpen (db : DB) (tid : Nat) (b : Bool) (pk : Nat) :
    getTrip (setOpen db tid b) pk
      = (getTrip db pk).map (fun t =>
          if t.id == tid then { t with signups_open := b } else t) := by
  unfold getTrip setOpen
  exact find?_map_of_pred_eq _ _ (fun u => by split <;> rfl) db.trips

/-- C8: the participant self-service checks and the administrator
bypass.  `form_valid` rejects with "Already signed up!" when a signup
for the (participant, trip) pair exists, and with "Signups aren't
open!" when the trip is closed; administrator placement
(`trip_or_wait` with `trip_must_be_open = false`, the call made by the
batch re-place loop) produces a store and signup that do not depend on
the `signups_open` flag at all. -/
theorem C8_signup_checks_and_admin_bypass (db : DB) (s : SignUp) (t : Trip)
    (tid : Nat) (b : Bool) :
    (db.signups.any
        (fun u => u.participant == s.participant && u.trip == s.trip) = true →
      form_valid db s t = .error .alreadySignedUp)
    ∧ (db.signups.any
        (fun u => u.participant == s.participant && u.trip == s.trip) = false →
      t.signups_open = false → form_valid db s t = .error .signupsClosed)
    ∧ ((trip_or_wait (setOpen db tid b) s false).1.signups
        = (trip_or_wait db s false).1.signups
      ∧ (trip_or_wait (setOpen db tid b) s false).2
        = (trip_or_wait db s false).2) := by
  refine ⟨?_, ?_, ?_⟩
  · intro h
    unfold form_valid
    rw [if_pos h]
  · intro h hopen
    unfold form_valid
    rw [if_neg (by simp [h]), if_pos (by simp [hopen])]
  · have hsig : (setOpen db tid b).signups = db.signups := rfl
    unfold trip_or_wait
    rw [getTrip_setOpen]
    cases hg : getTrip db s.trip with
    | none => exact ⟨rfl, rfl⟩
    | some t0 =>
      have hmap : Option.map (fun t =>
            if t.id == tid then { t with signups_open := b } else t) (some t0)
          = some (if t0.id == tid then { t0 with signups_open := b } else t0) :=
        rfl
      rw [hmap]
      have hcap : (if t0.id == tid
            then { t0 with signups_open := b } else t0).maximum_participants
          = t0.maximum_participants := by split <;> rfl
      dsimp only
      rw [hcap, confirmedCount_eq_of_signups_eq hsig s.trip,
        tailRank_eq_of_signups_eq hsig s.trip]
      simp only [Bool.false_and, Bool.false_eq_true, if_false]
      by_cases hc : confirmedCount db s.trip < t0.maximum_participants.toNat
      · rw [if_pos hc, if_pos hc]
        exact ⟨saveSignup_signups_eq hsig _, rfl⟩
      · rw [if_neg hc, if_neg hc]
        exact ⟨saveSignup_signups_eq hsig _, rfl⟩

/-- Closed instances of `C8_signup_checks_and_admin_bypass`: participant
11 re-signing for trip 1 is rejected as already signed up; participant
15 signing for the closed trip 2 is rejected as closed; and the
administrator placement of that same signup gives the same signup table
whether or not trip 2 is open. -/
theorem C8_signup_checks_and_admin_bypass_witness :
    form_valid exDB2 exS1 exTrip = .error .alreadySignedUp
    ∧ form_valid exDB2 exS5 exTripClosed = .error .signupsClosed
    ∧ (trip_or_wait (setOpen exDB2 2 true) exS5 false).1.signups
        = (trip_or_wait exDB2 exS5 false).1.signups := by
  refine ⟨?_, ?_, ?_⟩
  · exact (C8_signup_checks_and_admin_bypass exDB2 exS1 exTrip 2 true).1
      (by decide)
  · exact (C8_signup_checks_and_admin_bypass exDB2 exS5 exTripClosed 2 true).2.1
      (by decide) (by decide)
  · exact (C8_signup_checks_and_admin_bypass exDB2 exS5 exTripClosed 2 true).2.2.1

/-! Algebra of per-row outcomes. -/

theorem lookupOutcome_cons (i : Nat) (o : Option SignUp)
    (out : List (Nat × Option SignUp)) (pk : Nat) :
    lookupOutcome ((i, o) :: out) pk
      = if i = pk then some o else lookupOutcome out pk := by
  unfold lookupOutcome
  by_cases h : i = pk
  · rw [find?_cons_pos' (fun p => p.1 == pk) (i, o) out (beq_iff_eq.mpr h),
      if_pos h]
    rfl
  · rw [find?_cons_neg' (fun p => p.1 == pk) (i, o) out (beq_eq_false_iff_ne.mpr h),
      if_neg h]

theorem applyOutcomes_nil (rows : List SignUp) :
    applyOutcomes [] rows = rows := by
  unfold applyOutcomes
  have hfun : (fun r : SignUp =>
      match lookupOutcome [] r.id with
      | some none => none
      | some (some r') => some r'
      | none => some r) = some := by
    funext r; rfl
  rw [hfun, List.filterMap_some]

theorem applyOutcomes_replace (i : Nat) (v : SignUp)
    (out : List (Nat × Option SignUp)) (hv : v.id = i)
    (hout : ∀ p ∈ out, p.1 ≠ i) :
    ∀ rows : List SignUp,
      applyOutcomes out (replaceRow i v rows)
        = applyOutcomes ((i, some v) :: out) rows := by
  intro rows
  induction rows with
  | nil => rfl
  | cons r rest ih =>
    unfold applyOutcomes at *
    unfold replaceRow at *
    rw [List.map_cons, List.filterMap_cons, List.filterMap_cons, ih]
    by_cases hr : r.id = i
    · rw [if_pos (beq_iff_eq.mpr hr)]
      rw [lookupOutcome_cons, if_pos hr.symm]
      have hnone : lookupOutcome out v.id = none := by
        unfold lookupOutcome
        rw [List.find?_eq_none.mpr]
        · rfl
        · intro p hp
          simp only [beq_iff_eq]
          rw [hv]
          exact hout p hp
      rw [hnone]
    · rw [if_neg (by simpa using hr)]
      rw [lookupOutcome_cons, if_neg (fun h => hr h.symm)]

theorem applyOutcomes_remove (i : Nat)
    (out : List (Nat × Option SignUp)) :
    ∀ rows : List SignUp,
      applyOutcomes out (removeRow i rows)
        = applyOutcomes ((i, none) :: out) rows := by
  intro rows
  induction rows with
  | nil => rfl
  | cons r rest ih =>
    unfold applyOutcomes at *
    unfold removeRow at *
    by_cases hr : r.id = i
    · rw [List.filter_cons_of_neg (by simpa using hr), ih, List.filterMap_cons]
      rw [lookupOutcome_cons, if_pos hr.symm]
    · rw [List.filter_cons_of_pos (by simpa using hr), List.filterMap_cons,
        List.filterMap_cons, ih]
      rw [lookupOutcome_cons, if_neg (fun h => hr h.symm)]

theorem lookupOutcome_eq_some_mem {out : List (Nat × Option SignUp)}
    {pk : Nat} {o : Option SignUp} (h : lookupOutcome out pk = some o) :
    ∃ p ∈ out, p.1 = pk ∧ p.2 = o := by
  unfold lookupOutcome at h
  cases hf : out.find? (fun p => p.1 == pk) with
  | none => rw [hf] at h; exact absurd h (by simp)
  | some p =>
    rw [hf] at h
    refine ⟨p, List.mem_of_find?_eq_some hf, ?_, ?_⟩
    · have := List.find?_some hf
      simpa using this
    · simpa using h

theorem find?_applyOutcomes (out : List (Nat × Option SignUp)) (pk : Nat)
    (hv : ∀ p ∈ out, ∀ v, p.2 = some v → v.id = p.1) :
    ∀ rows : List SignUp,
      (applyOutcomes out rows).find? (fun u => u.id == pk)
        = match lookupOutcome out pk with
          | some none => none
          | some (some v) =>
            if (rows.find? (fun u => u.id == pk)).isSome then some v else none
          | none => rows.find? (fun u => u.id == pk) := by
  intro rows
  induction rows with
  | nil =>
    cases hm : lookupOutcome out pk with
    | none => rfl
    | some o => cases o <;> rfl
  | cons r rest ih =>
    unfold applyOutcomes at *
    rw [List.filterMap_cons]
    by_cases hr : r.id = pk
    · rw [show lookupOutcome out r.id = lookupOutcome out pk from by rw [hr]]
      cases hm : lookupOutcome out pk with
      | none =>
        dsimp only
        rw [find?_cons_pos' (fun u => u.id == pk) r _ (beq_iff_eq.mpr hr),
          find?_cons_pos' (fun u => u.id == pk) r _ (beq_iff_eq.mpr hr)]
      | some o =>
        cases o with
        | none =>
          dsimp only
          rw [ih, hm]
        | some v =>
          obtain ⟨p, hp, hp1, hp2⟩ := lookupOutcome_eq_some_mem hm
          have hvid : v.id = pk := by rw [hv p hp v hp2, hp1]
          dsimp only
          rw [find?_cons_pos' (fun u => u.id == pk) v _ (beq_iff_eq.mpr hvid),
            if_pos (by
              rw [find?_cons_pos' (fun u => u.id == pk) r _ (beq_iff_eq.mpr hr)]
              rfl)]
    · cases hm : lookupOutcome out r.id with
      | none =>
        dsimp only
        rw [find?_cons_neg' (fun u => u.id == pk) r _ (beq_eq_false_iff_ne.mpr hr),
          ih, find?_cons_neg' (fun u => u.id == pk) r _ (beq_eq_false_iff_ne.mpr hr)]
      | some o =>
        cases o with
        | none =>
          dsimp only
          rw [ih, find?_cons_neg' (fun u => u.id == pk) r _ (beq_eq_false_iff_ne.mpr hr)]
        | some v =>
          obtain ⟨p, hp, hp1, hp2⟩ := lookupOutcome_eq_some_mem hm
          have hvid : v.id = r.id := by rw [hv p hp v hp2, hp1]
          have hvne : v.id ≠ pk := by rw [hvid]; exact hr
          dsimp only
          rw [find?_cons_neg' (fun u => u.id == pk) v _ (beq_eq_false_iff_ne.mpr hvne),
            ih, find?_cons_neg' (fun u => u.id == pk) r _ (beq_eq_false_iff_ne.mpr hr)]

theorem mem_applyOutcomes {out : List (Nat × Option SignUp)}
    {rows : List SignUp} {x : SignUp} (h : x ∈ applyOutcomes out rows) :
    ∃ r ∈ rows, lookupOutcome out r.id = some (some x)
      ∨ (lookupOutcome out r.id = none ∧ x = r) := by
  unfold applyOutcomes at h
  obtain ⟨r, hr, hfr⟩ := List.mem_filterMap.mp h
  refine ⟨r, hr, ?_⟩
  revert hfr
  cases hm : lookupOutcome out r.id with
  | none => intro hfr; right; exact ⟨rfl, by simpa using hfr.symm⟩
  | some o =>
    cases o with
    | none => intro hfr; exact absurd hfr (by simp)
    | some v => intro hfr; left; rw [show v = x from by simpa using hfr]

theorem ids_applyOutcomes_sublist (out : List (Nat × Option SignUp))
    (hv : ∀ p ∈ out, ∀ v, p.2 = some v → v.id = p.1) :
    ∀ rows : List SignUp,
      List.Sublist ((applyOutcomes out rows).map (fun u => u.id))
        (rows.map (fun u => u.id)) := by
  intro rows
  induction rows with
  | nil => exact List.Sublist.refl _
  | cons r rest ih =>
    unfold applyOutcomes at *
    rw [List.filterMap_cons]
    cases hm : lookupOutcome out r.id with
    | none =>
      dsimp only
      rw [List.map_cons, List.map_cons]
      exact ih.cons₂ r.id
    | some o =>
      cases o with
      | none =>
        dsimp only
        rw [List.map_cons]
        exact ih.cons r.id
      | some v =>
        obtain ⟨p, hp, hp1, hp2⟩ := lookupOutcome_eq_some_mem hm
        have hvid : v.id = r.id := by rw [hv p hp v hp2, hp1]
        dsimp only
        rw [List.map_cons, List.map_cons, hvid]
        exact ih.cons₂ r.id

theorem ids_applyOutcomes_all_some (out : List (Nat × Option SignUp))
    (hv : ∀ p ∈ out, ∀ v, p.2 = some v → v.id = p.1)
    (hsome : ∀ p ∈ out, p.2 ≠ none) :
    ∀ rows : List SignUp,
      (applyOutcomes out rows).map (fun u => u.id)
        = rows.map (fun u => u.id) := by
  intro rows
  induction rows with
  | nil => rfl
  | cons r rest ih =>
    unfold applyOutcomes at *
    rw [List.filterMap_cons]
    cases hm : lookupOutcome out r.id with
    | none =>
      dsimp only
      rw [List.map_cons, List.map_cons, ih]
    | some o =>
      cases o with
      | none =>
        obtain ⟨p, hp, hp1, hp2⟩ := lookupOutcome_eq_some_mem hm
        exact absurd hp2 (hsome p hp)
      | some v =>
        obtain ⟨p, hp, hp1, hp2⟩ := lookupOutcome_eq_some_mem hm
        have hvid : v.id = r.id := by rw [hv p hp v hp2, hp1]
        dsimp only
        rw [List.map_cons, List.map_cons, hvid, ih]

theorem applyOutcomes_collapse (out1 out2 : List (Nat × Option SignUp))
    (hv1 : ∀ p ∈ out1, ∀ v, p.2 = some v → v.id = p.1)
    (hsome1 : ∀ p ∈ out1, p.2 ≠ none)
    (hsub : ∀ p ∈ out1, ∃ o, lookupOutcome out2 p.1 = some o) :
    ∀ rows : List SignUp,
      applyOutcomes out2 (applyOutcomes out1 rows)
        = applyOutcomes out2 rows := by
  intro rows
  induction rows with
  | nil => rfl
  | cons r rest ih =>
    unfold applyOutcomes at *
    rw [List.filterMap_cons]
    cases hm : lookupOutcome out1 r.id with
    | none =>
      dsimp only
      rw [List.filterMap_cons, List.filterMap_cons, ih]
    | some o =>
      cases o with
      | none =>
        obtain ⟨p, hp, hp1, hp2⟩ := lookupOutcome_eq_some_mem hm
        exact absurd hp2 (hsome1 p hp)
      | some v =>
        obtain ⟨p, hp, hp1, hp2⟩ := lookupOutcome_eq_some_mem hm
        have hvid : v.id = r.id := by rw [hv1 p hp v hp2, hp1]
        obtain ⟨o2, ho2⟩ := hsub p hp
        have ho2' : lookupOutcome out2 r.id = some o2 := by
          rw [← hp1]; exact ho2
        dsimp only
        rw [List.filterMap_cons, List.filterMap_cons, ih,
          show lookupOutcome out2 v.id = some o2 from by rw [hvid]; exact ho2',
          ho2']
        cases o2 with
        | none => rfl
        | some w => rfl

/-! Counting confirmed rows through replacement and removal. -/

theorem replaceRow_not_mem (i : Nat) (v : SignUp) :
    ∀ l : List SignUp, i ∉ l.map (fun u => u.id) → replaceRow i v l = l := by
  intro l
  induction l with
  | nil => intro h; rfl
  | cons u rest ih =>
    intro h
    rw [List.map_cons, List.mem_cons] at h
    push_neg at h
    unfold replaceRow at *
    rw [List.map_cons, if_neg (by simpa using fun hh => h.1 hh.symm), ih h.2]

theorem removeRow_not_mem (i : Nat) :
    ∀ l : List SignUp, i ∉ l.map (fun u => u.id) → removeRow i l = l := by
  intro l
  induction l with
  | nil => intro h; rfl
  | cons u rest ih =>
    intro h
    rw [List.map_cons, List.mem_cons] at h
    push_neg at h
    unfold removeRow at *
    rw [List.filter_cons_of_pos (by simpa using fun hh => h.1 hh.symm), ih h.2]

theorem ids_replaceRow (i : Nat) (v : SignUp) (hv : v.id = i) :
    ∀ l : List SignUp,
      (replaceRow i v l).map (fun u => u.id) = l.map (fun u => u.id) := by
  intro l
  induction l with
  | nil => rfl
  | cons u rest ih =>
    unfold replaceRow at *
    rw [List.map_cons, List.map_cons, List.map_cons, ih]
    by_cases hu : u.id = i
    · rw [if_pos (beq_iff_eq.mpr hu), hv, hu]
    · rw [if_neg (by simpa using hu)]

theorem ids_removeRow_nodup (i : Nat) (l : List SignUp)
    (h : (l.map (fun u => u.id)).Nodup) :
    ((removeRow i l).map (fun u => u.id)).Nodup :=
  List.Nodup.sublist (List.Sublist.map _ (List.filter_sublist l)) h

theorem filter_length_replaceRow (p : SignUp → Bool) (i : Nat) (v r : SignUp)
    (hv : v.id = i) :
    ∀ l : List SignUp, (l.map (fun u => u.id)).Nodup →
      l.find? (fun u => u.id == i) = some r →
      ((replaceRow i v l).filter p).length + (if p r then 1 else 0)
        = (l.filter p).length + (if p v then 1 else 0) := by
  intro l
  induction l with
  | nil => intro _ hf; exact absurd hf (by simp)
  | cons u rest ih =>
    intro hnd hf
    rw [List.map_cons, List.nodup_cons] at hnd
    by_cases hu : u.id = i
    · rw [find?_cons_pos' (fun x => x.id == i) u rest (beq_iff_eq.mpr hu)] at hf
      have hru : r = u := by simpa using hf.symm
      subst hru
      unfold replaceRow
      rw [List.map_cons, if_pos (beq_iff_eq.mpr hu)]
      rw [show List.map (fun x => if x.id == i then v else x) rest
          = replaceRow i v rest from rfl]
      rw [replaceRow_not_mem i v rest (by rw [← hu]; exact hnd.1)]
      rw [List.filter_cons, List.filter_cons]
      by_cases hpv : p v = true <;> by_cases hpu2 : p r = true <;>
        simp [hpv, hpu2] <;> omega
    · rw [find?_cons_neg' (fun x => x.id == i) u rest
        (beq_eq_false_iff_ne.mpr hu)] at hf
      have hrec := ih hnd.2 hf
      unfold replaceRow at hrec ⊢
      rw [List.map_cons, if_neg (by simpa using hu), List.filter_cons,
        List.filter_cons]
      by_cases hpu2 : p u = true <;> simp [hpu2] at hrec ⊢ <;> omega

theorem filter_length_removeRow (p : SignUp → Bool) (i : Nat) (r : SignUp) :
    ∀ l : List SignUp, (l.map (fun u => u.id)).Nodup →
      l.find? (fun u => u.id == i) = some r →
      ((removeRow i l).filter p).length + (if p r then 1 else 0)
        = (l.filter p).length := by
  intro l
  induction l with
  | nil => intro _ hf; exact absurd hf (by simp)
  | cons u rest ih =>
    intro hnd hf
    rw [List.map_cons, List.nodup_cons] at hnd
    by_cases hu : u.id = i
    · rw [find?_cons_pos' (fun x => x.id == i) u rest (beq_iff_eq.mpr hu)] at hf
      have hru : r = u := by simpa using hf.symm
      subst hru
      unfold removeRow
      rw [List.filter_cons_of_neg (by simpa using hu)]
      rw [show List.filter (fun x => !(x.id == i)) rest
          = removeRow i rest from rfl]
      rw [removeRow_not_mem i rest (by rw [← hu]; exact hnd.1)]
      rw [List.filter_cons]
      by_cases hpr : p r = true <;> simp [hpr] <;> omega
    · rw [find?_cons_neg' (fun x => x.id == i) u rest
        (beq_eq_false_iff_ne.mpr hu)] at hf
      have hrec := ih hnd.2 hf
      unfold removeRow at hrec ⊢
      rw [List.filter_cons_of_pos (by simpa using hu), List.filter_cons]
      by_cases hpu2 : p u = true <;> simp [hpu2] at hrec ⊢ <;> omega

theorem lookupOutcome_map_self (f : SignUp × Bool → Option SignUp) :
    ∀ (es : List (SignUp × Bool)) (e : SignUp × Bool),
      (es.map (fun x => x.1.id)).Nodup → e ∈ es →
      lookupOutcome (es.map (fun x => (x.1.id, f x))) e.1.id = some (f e) := by
  intro es
  induction es with
  | nil => intro e _ he; exact absurd he (by simp)
  | cons a rest ih =>
    intro e hnd he
    rw [List.map_cons, List.nodup_cons] at hnd
    rw [List.map_cons, lookupOutcome_cons]
    rcases List.mem_cons.mp he with rfl | hmem
    · rw [if_pos rfl]
    · rw [if_neg ?_]
      · exact ih e hnd.2 hmem
      · intro hh
        exact hnd.1 (hh ▸ List.mem_map.mpr ⟨e, hmem, rfl⟩)

theorem lookupOutcome_map_not_mem (f : SignUp × Bool → Option SignUp)
    (es : List (SignUp × Bool)) (pk : Nat)
    (h : pk ∉ es.map (fun x => x.1.id)) :
    lookupOutcome (es.map (fun x => (x.1.id, f x))) pk = none := by
  unfold lookupOutcome
  rw [List.find?_eq_none.mpr]
  · rfl
  · intro p hp
    obtain ⟨x, hx, rfl⟩ := List.mem_map.mp hp
    simp only [beq_iff_eq]
    exact fun hh => h (hh ▸ List.mem_map.mpr ⟨x, hx, rfl⟩)

/-! Single steps of the re-place loop. -/

theorem DB_ext {a b : DB} (h1 : a.trips = b.trips) (h2 : a.signups = b.signups)
    (h3 : a.lotteryinfos = b.lotteryinfos) : a = b := by
  cases a; cases b
  congr 1

theorem saveSignupRow_exists {db : DB} {s : SignUp}
    (h : (getSignup db s.id).isSome) :
    saveSignupRow db s = { db with signups := replaceRow s.id s db.signups } := by
  have hany : db.signups.any (fun u => u.id == s.id) = true := by
    rw [List.any_eq_true]
    rw [getSignup, List.find?_isSome] at h
    obtain ⟨x, hx, hpx⟩ := h
    exact ⟨x, hx, hpx⟩
  unfold saveSignupRow
  rw [if_pos hany]
  rfl

theorem replaceRow_replaceRow (i : Nat) (v1 v2 : SignUp) (h1 : v1.id = i) :
    ∀ l : List SignUp,
      replaceRow i v2 (replaceRow i v1 l) = replaceRow i v2 l := by
  intro l
  unfold replaceRow
  rw [List.map_map]
  refine List.map_congr_left ?_
  intro a _
  simp only [Function.comp]
  by_cases hu : a.id = i
  · rw [if_pos (beq_iff_eq.mpr hu), if_pos (beq_iff_eq.mpr h1),
      if_pos (beq_iff_eq.mpr hu)]
  · rw [show (if a.id == i then v1 else a) = a from if_neg (by simpa using hu)]

theorem deleteSignup_cleared {db : DB} {s : SignUp} (hfalse : s.on_trip = false) :
    deleteSignup db s = { db with signups := removeRow s.id db.signups } := by
  unfold deleteSignup
  rw [hfalse]
  dsimp only
  rfl

theorem getSignup_replaceRow_ne {db : DB} {i : Nat} {v : SignUp}
    (hv : v.id = i) {pk : Nat} (hpk : pk ≠ i) :
    getSignup { db with signups := replaceRow i v db.signups } pk
      = getSignup db pk := by
  show List.find? (fun u => u.id == pk)
      (db.signups.map (fun u => if u.id == i then v else u)) = getSignup db pk
  rw [find?_replace_ne (fun u => u.id) v i pk hv hpk db.signups]
  rfl

theorem survivor_step (db : DB) (s : SignUp) (t : Trip) (ord : Nat)
    (hg : getTrip db s.trip = some t)
    (hrow : getSignup db s.id = some s)
    (hfalse : s.on_trip = false) :
    (next_in_order (trip_or_wait db s false).1 (trip_or_wait db s false).2 ord).1
      = { db with
          signups := replaceRow s.id
            { s with
              on_trip := decide (confirmedCount db s.trip
                < t.maximum_participants.toNat),
              order := some (ord : Int) } db.signups } := by
  have hsome : (getSignup db s.id).isSome := by rw [hrow]; rfl
  by_cases hc : confirmedCount db s.trip < t.maximum_participants.toNat
  · have htw : trip_or_wait db s false
        = (saveSignupRow db { s with on_trip := true },
           { s with on_trip := true }) := by
      unfold trip_or_wait
      rw [hg]
      dsimp only
      rw [if_neg (by simp), if_pos hc,
        saveSignup_of_row_not_confirmed
          (show getSignup db ({ s with on_trip := true } : SignUp).id = some s
            from hrow) hfalse]
    rw [htw]
    have hrow1 : getSignup (saveSignupRow db { s with on_trip := true })
        ({ s with on_trip := true, order := some (ord : Int) } : SignUp).id
        = some { s with on_trip := true } := by
      rw [show ({ s with on_trip := true, order := some (ord : Int) } : SignUp).id
          = ({ s with on_trip := true } : SignUp).id from rfl]
      rw [getSignup_saveSignupRow db { s with on_trip := true } hsome]
      rw [if_pos rfl]
    unfold next_in_order
    dsimp only
    rw [saveSignup_of_on_trip
      (show ({ s with on_trip := true, order := some (ord : Int) } : SignUp).on_trip = true from rfl)]
    rw [saveSignupRow_exists (by rw [hrow1]; rfl),
      @saveSignupRow_exists db { s with on_trip := true } hsome]
    dsimp only
    rw [replaceRow_replaceRow s.id { s with on_trip := true }
      { s with on_trip := true, order := some (ord : Int) } rfl db.signups]
    rw [show decide (confirmedCount db s.trip < t.maximum_participants.toNat)
        = true from decide_eq_true hc]
  · have htw : trip_or_wait db s false
        = (saveSignupRow db
            { s with
              on_trip := false,
              order := some (tailRank db s.trip + 1) },
           { s with
             on_trip := false,
             order := some (tailRank db s.trip + 1) }) := by
      unfold trip_or_wait
      rw [hg]
      dsimp only
      rw [if_neg (by simp), if_neg hc,
        saveSignup_of_row_not_confirmed
          (show getSignup db
              ({ s with
                 on_trip := false,
                 order := some (tailRank db s.trip + 1) } : SignUp).id = some s
            from hrow) hfalse]
    rw [htw]
    have hrow1 : getSignup (saveSignupRow db
        { s with
          on_trip := false,
          order := some (tailRank db s.trip + 1) })
        ({ s with on_trip := false, order := some (ord : Int) } : SignUp).id
        = some
          { s with
            on_trip := false,
            order := some (tailRank db s.trip + 1) } := by
      rw [show ({ s with on_trip := false, order := some (ord : Int) } : SignUp).id
          = ({ s with
               on_trip := false,
               order := some (tailRank db s.trip + 1) } : SignUp).id from rfl]
      rw [getSignup_saveSignupRow db
        { s with
          on_trip := false,
          order := some (tailRank db s.trip + 1) } hsome]
      rw [if_pos rfl]
    unfold next_in_order
    dsimp only
    rw [saveSignup_of_row_not_confirmed hrow1 rfl]
    rw [saveSignupRow_exists (by rw [hrow1]; rfl),
      @saveSignupRow_exists db
        { s with
          on_trip := false,
          order := some (tailRank db s.trip + 1) } hsome]
    dsimp only
    rw [replaceRow_replaceRow s.id
      { s with
        on_trip := false,
        order := some (tailRank db s.trip + 1) }
      { s with on_trip := false, order := some (ord : Int) } rfl db.signups]
    rw [show decide (confirmedCount db s.trip < t.maximum_participants.toNat)
        = false from decide_eq_false hc]

theorem confirmedCount_replaceRow (db : DB) (s s2 : SignUp) (tid : Nat)
    (hnd : (db.signups.map (fun u => u.id)).Nodup)
    (hrow : getSignup db s.id = some s)
    (hfalse : s.on_trip = false)
    (hid : s2.id = s.id) (htrip : s2.trip = s.trip) (htid : s.trip = tid) :
    confirmedCount { db with signups := replaceRow s.id s2 db.signups } tid
      = confirmedCount db tid + (if s2.on_trip then 1 else 0) := by
  have key := filter_length_replaceRow (fun u => u.trip == tid && u.on_trip)
    s.id s2 s hid db.signups hnd hrow
  dsimp only at key
  rw [hfalse] at key
  rw [htrip, htid] at key
  unfold confirmedCount
  by_cases hs2 : s2.on_trip = true <;> simp [hs2] at key ⊢ <;> omega

theorem confirmedCount_removeRow (db : DB) (s : SignUp) (tid : Nat)
    (hnd : (db.signups.map (fun u => u.id)).Nodup)
    (hrow : getSignup db s.id = some s)
    (hfalse : s.on_trip = false) :
    confirmedCount { db with signups := removeRow s.id db.signups } tid
      = confirmedCount db tid := by
  have key := filter_length_removeRow (fun u => u.trip == tid && u.on_trip)
    s.id s db.signups hnd hrow
  dsimp only at key
  rw [hfalse] at key
  unfold confirmedCount
  simp at key ⊢
  omega

theorem ids_rePlaceOutcomes (cap : Nat) :
    ∀ (es : List (SignUp × Bool)) (c ord : Nat),
      (rePlaceOutcomes cap c ord es).map (fun p => p.1)
        = es.map (fun e => e.1.id) := by
  intro es
  induction es with
  | nil => intro c ord; rfl
  | cons e rest ih =>
    intro c ord
    obtain ⟨s, remove⟩ := e
    simp only [rePlaceOutcomes]
    cases remove with
    | true => rw [if_pos rfl, List.map_cons, List.map_cons, ih]
    | false =>
      rw [if_neg (by simp), List.map_cons, List.map_cons, ih]

/-- The re-place loop rewrites exactly the instructed rows: removed
entries are deleted, and each survivor is confirmed exactly when a seat
is left, carrying its instruction index as rank. -/
theorem rePlace_characterization (tid : Nat) (t : Trip) :
    ∀ (es : List (SignUp × Bool)) (ord : Nat) (db : DB),
      getTrip db tid = some t →
      (db.signups.map (fun u => u.id)).Nodup →
      (es.map (fun e => e.1.id)).Nodup →
      (∀ e ∈ es, e.1.trip = tid ∧ e.1.on_trip = false
        ∧ getSignup db e.1.id = some e.1) →
      rePlace db ord es
        = { db with
            signups := applyOutcomes
              (rePlaceOutcomes t.maximum_participants.toNat
                (confirmedCount db tid) ord es) db.signups } := by
  intro es
  induction es with
  | nil =>
    intro ord db hg hnd hes hinv
    simp only [rePlace, rePlaceOutcomes]
    rw [applyOutcomes_nil]
  | cons e rest ih =>
    intro ord db hg hnd hes hinv
    obtain ⟨s, remove⟩ := e
    obtain ⟨htrip, hfalse, hrow⟩ := hinv (s, remove) (List.mem_cons_self _ _)
    dsimp only at htrip hfalse hrow
    subst htrip
    rw [List.map_cons, List.nodup_cons] at hes
    cases remove with
    | true =>
      simp only [rePlace]
      rw [if_pos trivial, deleteSignup_cleared hfalse]
      have hg1 : getTrip ({ db with
          signups := removeRow s.id db.signups } : DB) s.trip = some t := hg
      have hnd1 : (({ db with
          signups := removeRow s.id db.signups } : DB).signups.map
            (fun u => u.id)).Nodup :=
        ids_removeRow_nodup s.id db.signups hnd
      have hinv1 : ∀ e ∈ rest, e.1.trip = s.trip ∧ e.1.on_trip = false
          ∧ getSignup { db with
              signups := removeRow s.id db.signups } e.1.id = some e.1 := by
        intro e he
        obtain ⟨h1, h2, h3⟩ := hinv e (List.mem_cons_of_mem _ he)
        refine ⟨h1, h2, ?_⟩
        rw [show getSignup { db with signups := removeRow s.id db.signups } e.1.id
            = getSignup (deleteSignupRow db s.id) e.1.id from rfl,
          getSignup_deleteSignupRow, if_neg, h3]
        exact fun hh => hes.1 (hh ▸ List.mem_map.mpr ⟨e, he, rfl⟩)
      rw [ih (ord + 1) _ hg1 hnd1 hes.2 hinv1]
      rw [confirmedCount_removeRow db s s.trip hnd hrow hfalse]
      simp only [rePlaceOutcomes]
      rw [if_pos trivial]
      rw [← applyOutcomes_remove s.id _ db.signups]
    | false =>
      simp only [rePlace]
      rw [if_neg (by simp)]
      have hstep := survivor_step db s t ord hg hrow hfalse
      rw [hstep]
      have hg1 : getTrip ({ db with
          signups := replaceRow s.id
            { s with
              on_trip := decide (confirmedCount db s.trip
                < t.maximum_participants.toNat),
              order := some (ord : Int) } db.signups } : DB) s.trip = some t := hg
      have hnd1 : (({ db with
          signups := replaceRow s.id
            { s with
              on_trip := decide (confirmedCount db s.trip
                < t.maximum_participants.toNat),
              order := some (ord : Int) } db.signups } : DB).signups.map
            (fun u => u.id)).Nodup := by
        rw [show ({ db with
            signups := replaceRow s.id
              { s with
                on_trip := decide (confirmedCount db s.trip
                  < t.maximum_participants.toNat),
                order := some (ord : Int) } db.signups } : DB).signups
            = replaceRow s.id
              { s with
                on_trip := decide (confirmedCount db s.trip
                  < t.maximum_participants.toNat),
                order := some (ord : Int) } db.signups from rfl]
        rw [ids_replaceRow s.id
          { s with
            on_trip := decide (confirmedCount db s.trip
              < t.maximum_participants.toNat),
            order := some (ord : Int) } rfl]
        exact hnd
      have hinv1 : ∀ e ∈ rest, e.1.trip = s.trip ∧ e.1.on_trip = false
          ∧ getSignup { db with
              signups := replaceRow s.id
                { s with
                  on_trip := decide (confirmedCount db s.trip
                    < t.maximum_participants.toNat),
                  order := some (ord : Int) } db.signups } e.1.id = some e.1 := by
        intro e he
        obtain ⟨h1, h2, h3⟩ := hinv e (List.mem_cons_of_mem _ he)
        refine ⟨h1, h2, ?_⟩
        rw [@getSignup_replaceRow_ne db s.id
          { s with
            on_trip := decide (confirmedCount db s.trip
              < t.maximum_participants.toNat),
            order := some (ord : Int) } rfl e.1.id
          (fun hh => hes.1 (hh ▸ List.mem_map.mpr ⟨e, he, rfl⟩)), h3]
      rw [ih (ord + 1) _ hg1 hnd1 hes.2 hinv1]
      have hcnt := confirmedCount_replaceRow db s
        { s with
          on_trip := decide (confirmedCount db s.trip
            < t.maximum_participants.toNat),
          order := some (ord : Int) } s.trip hnd hrow hfalse rfl rfl rfl
      have heq : confirmedCount { db with
          signups := replaceRow s.id
            { s with
              on_trip := decide (confirmedCount db s.trip
                < t.maximum_participants.toNat),
              order := some (ord : Int) } db.signups } s.trip
          = if confirmedCount db s.trip < t.maximum_participants.toNat
              then confirmedCount db s.trip + 1 else confirmedCount db s.trip := by
        rw [hcnt]
        by_cases hc : confirmedCount db s.trip < t.maximum_participants.toNat <;>
          simp [hc]
      rw [heq]
      simp only [rePlaceOutcomes]
      rw [if_neg Bool.false_ne_true]
      rw [← applyOutcomes_replace s.id
        { s with
          on_trip := decide (confirmedCount db s.trip
            < t.maximum_participants.toNat),
          order := some (ord : Int) } _ rfl ?_ db.signups]
      · intro p hp
        have hmem : p.1 ∈ rest.map (fun e => e.1.id) := by
          rw [← ids_rePlaceOutcomes t.maximum_participants.toNat rest
            (if confirmedCount db s.trip < t.maximum_participants.toNat
              then confirmedCount db s.trip + 1 else confirmedCount db s.trip)
            (ord + 1)]
          exact List.mem_map.mpr ⟨p, hp, rfl⟩
        exact fun hh => hes.1 (hh ▸ hmem)

/-- The clear phase saves every instructed signup as not-on-trip with
signals suppressed, touching no other row, and hands the updated objects
to the second loop. -/
theorem clearPhase_characterization :
    ∀ (es : List (SignUp × Bool)) (db : DB),
      (db.signups.map (fun u => u.id)).Nodup →
      (es.map (fun e => e.1.id)).Nodup →
      (∀ e ∈ es, (getSignup db e.1.id).isSome) →
      clearPhase db es
        = ({ db with
             signups := applyOutcomes
               (es.map (fun e => (e.1.id, some (clearedOf e.1)))) db.signups },
           es.map (fun e => (clearedOf e.1, e.2))) := by
  intro es
  induction es with
  | nil =>
    intro db hnd hes hrows
    simp only [clearPhase, List.map_nil]
    rw [applyOutcomes_nil]
  | cons e rest ih =>
    intro db hnd hes hrows
    obtain ⟨s, remove⟩ := e
    have hsome : (getSignup db s.id).isSome :=
      hrows (s, remove) (List.mem_cons_self _ _)
    rw [List.map_cons, List.nodup_cons] at hes
    simp only [clearPhase, clearedOf]
    rw [saveSignup_of_skip
      (show ({ s with on_trip := false, skip_signals := true } : SignUp).skip_signals = true from rfl)]
    rw [@saveSignupRow_exists db
      { s with on_trip := false, skip_signals := true } hsome]
    have hnd1 : (({ db with
        signups := replaceRow s.id
          { s with on_trip := false, skip_signals := true }
          db.signups } : DB).signups.map (fun u => u.id)).Nodup := by
      rw [show ({ db with
          signups := replaceRow s.id
            { s with on_trip := false, skip_signals := true }
            db.signups } : DB).signups
          = replaceRow s.id { s with on_trip := false, skip_signals := true }
            db.signups from rfl]
      rw [ids_replaceRow s.id
        { s with on_trip := false, skip_signals := true } rfl]
      exact hnd
    have hrows1 : ∀ e ∈ rest, (getSignup { db with
        signups := replaceRow s.id
          { s with on_trip := false, skip_signals := true }
          db.signups } e.1.id).isSome := by
      intro e he
      rw [@getSignup_replaceRow_ne db s.id
        { s with on_trip := false, skip_signals := true } rfl e.1.id
        (fun hh => hes.1 (hh ▸ List.mem_map.mpr ⟨e, he, rfl⟩))]
      exact hrows e (List.mem_cons_of_mem _ he)
    rw [ih _ hnd1 hes.2 hrows1]
    simp only [clearedOf, List.map_cons]
    rw [← applyOutcomes_replace s.id
      { s with on_trip := false, skip_signals := true } _ rfl ?_ db.signups]
    · intro p hp
      obtain ⟨e, he, rfl⟩ := List.mem_map.mp hp
      exact fun hh => hes.1 (hh ▸ List.mem_map.mpr ⟨e, he, rfl⟩)

theorem lookupOutcome_isSome {out : List (Nat × Option SignUp)} {pk : Nat}
    (h : pk ∈ out.map (fun p => p.1)) :
    ∃ o, lookupOutcome out pk = some o := by
  obtain ⟨p, hp, hpk⟩ := List.mem_map.mp h
  have hsome : (out.find? (fun q => q.1 == pk)).isSome :=
    List.find?_isSome.mpr ⟨p, hp, by simp [hpk]⟩
  cases hf : out.find? (fun q => q.1 == pk) with
  | none => rw [hf] at hsome; exact absurd hsome (by simp)
  | some q => exact ⟨q.2, by unfold lookupOutcome; rw [hf]; rfl⟩

/-- The whole of `update_signups` in one step: provided the instruction
rows are current, belong to the trip, have distinct ids, and cover every
currently-confirmed signup of the trip, the run rewrites exactly the
instructed rows per `rePlaceOutcomes` starting from zero confirmed
seats taken. -/
theorem update_signups_characterization (t : Trip) (db : DB)
    (es : List (SignUp × Bool)) (tid : Nat)
    (hg : getTrip db tid = some t)
    (hnd : (db.signups.map (fun u => u.id)).Nodup)
    (hes : (es.map (fun e => e.1.id)).Nodup)
    (hinv : ∀ e ∈ es, e.1.trip = tid ∧ getSignup db e.1.id = some e.1)
    (hconf : ∀ r ∈ db.signups, r.trip = tid → r.on_trip = true →
      r.id ∈ es.map (fun e => e.1.id)) :
    update_signups db es
      = { db with
          signups := applyOutcomes
            (rePlaceOutcomes t.maximum_participants.toNat 0 0
              (es.map (fun e => (clearedOf e.1, e.2)))) db.signups } := by
  have hclear := clearPhase_characterization es db hnd hes
    (fun e he => by rw [(hinv e he).2]; rfl)
  unfold update_signups
  rw [hclear]
  have hvout : ∀ p ∈ es.map (fun e => (e.1.id, some (clearedOf e.1))),
      ∀ v, p.2 = some v → v.id = p.1 := by
    intro p hp v hv
    obtain ⟨e, he, rfl⟩ := List.mem_map.mp hp
    dsimp only at hv ⊢
    rw [show v = clearedOf e.1 from by simpa using hv.symm]
    rfl
  have hids1 : (({ db with
      signups := applyOutcomes
        (es.map (fun e => (e.1.id, some (clearedOf e.1)))) db.signups } : DB).signups.map
        (fun u => u.id)) = db.signups.map (fun u => u.id) :=
    ids_applyOutcomes_all_some _ hvout
      (by
        intro p hp
        obtain ⟨e, he, rfl⟩ := List.mem_map.mp hp
        simp)
      db.signups
  have hnd1 : (({ db with
      signups := applyOutcomes
        (es.map (fun e => (e.1.id, some (clearedOf e.1)))) db.signups } : DB).signups.map
        (fun u => u.id)).Nodup := by
    rw [hids1]; exact hnd
  have hes1 : ((es.map (fun e => (clearedOf e.1, e.2))).map
      (fun e => e.1.id)).Nodup := by
    rw [List.map_map]
    exact hes
  have hrows1 : ∀ e1 ∈ es.map (fun e => (clearedOf e.1, e.2)),
      e1.1.trip = tid ∧ e1.1.on_trip = false
      ∧ getSignup { db with
          signups := applyOutcomes
            (es.map (fun e => (e.1.id, some (clearedOf e.1)))) db.signups }
          e1.1.id = some e1.1 := by
    intro e1 he1
    obtain ⟨e, he, rfl⟩ := List.mem_map.mp he1
    obtain ⟨h1, h2⟩ := hinv e he
    refine ⟨h1, rfl, ?_⟩
    show List.find? (fun u => u.id == (clearedOf e.1).id)
        (applyOutcomes (es.map (fun x => (x.1.id, some (clearedOf x.1))))
          db.signups) = some (clearedOf e.1)
    rw [find?_applyOutcomes _ _ hvout db.signups]
    rw [show ((clearedOf e.1).id : Nat) = e.1.id from rfl]
    rw [lookupOutcome_map_self (fun x => some (clearedOf x.1)) es e hes he]
    rw [show (db.signups.find? (fun u => u.id == e.1.id)) = getSignup db e.1.id
      from rfl, h2]
    rfl
  have hcnt : confirmedCount { db with
      signups := applyOutcomes
        (es.map (fun e => (e.1.id, some (clearedOf e.1)))) db.signups } tid
      = 0 := by
    unfold confirmedCount
    rw [List.length_eq_zero]
    rw [List.filter_eq_nil]
    intro r hr
    obtain ⟨r0, hr0, hcase⟩ := mem_applyOutcomes hr
    rcases hcase with hout | ⟨hnone, rfl⟩
    · obtain ⟨p, hp, hp1, hp2⟩ := lookupOutcome_eq_some_mem hout
      obtain ⟨e, he, rfl⟩ := List.mem_map.mp hp
      have : r = clearedOf e.1 := by simpa using hp2.symm
      rw [this]
      simp [clearedOf]
    · intro hcontra
      rw [Bool.and_eq_true] at hcontra
      have htr : r.trip = tid := by simpa using hcontra.1
      have hot : r.on_trip = true := by simpa using hcontra.2
      have hmem := hconf r hr0 htr hot
      obtain ⟨o, ho⟩ := lookupOutcome_isSome
        (by
          rw [show (es.map (fun e => (e.1.id, some (clearedOf e.1)))).map
              (fun p => p.1) = es.map (fun e => e.1.id) from by
            rw [List.map_map]; rfl]
          exact hmem)
      rw [ho] at hnone
      exact absurd hnone (by simp)
  have hg1 : getTrip ({ db with
      signups := applyOutcomes
        (es.map (fun e => (e.1.id, some (clearedOf e.1)))) db.signups } : DB) tid
      = some t := hg
  rw [rePlace_characterization tid t (es.map (fun e => (clearedOf e.1, e.2)))
    0 _ hg1 hnd1 hes1 hrows1]
  rw [hcnt]
  rw [show ({ db with
      signups := applyOutcomes
        (es.map (fun e => (e.1.id, some (clearedOf e.1)))) db.signups } : DB).signups
      = applyOutcomes (es.map (fun e => (e.1.id, some (clearedOf e.1))))
        db.signups from rfl]
  rw [applyOutcomes_collapse _ _ hvout
    (by
      intro p hp
      obtain ⟨e, he, rfl⟩ := List.mem_map.mp hp
      simp)
    (by
      intro p hp
      obtain ⟨e, he, rfl⟩ := List.mem_map.mp hp
      refine lookupOutcome_isSome ?_
      rw [ids_rePlaceOutcomes]
      exact List.mem_map.mpr ⟨(clearedOf e.1, e.2),
        List.mem_map.mpr ⟨e, he, rfl⟩, rfl⟩)
    db.signups]

/-- C4 as stated is false: the clear phase iterates over the POSTed
instruction list only, so a currently-confirmed signup omitted from the
instructions is left confirmed.  At the example store (capacity 2,
`exS1`/`exS2` confirmed), clearing with the single instruction
`[(exS3, keep)]` leaves `exS1` still on the trip. -/
theorem C4_clear_phase_counterexample :
    exS1.trip = 1 ∧ exS1.on_trip = true
    ∧ getSignup (clearPhase exDB [(exS3, false)]).1 1 = some exS1 := by
  refine ⟨rfl, rfl, ?_⟩
  rfl

/-- C4 (amended): the clear phase marks every signup *of the instruction
list* as not confirmed (saving it with `on_trip = false` and
`skip_signals = true`), and no other signup row changes — in particular
the promote-on-withdraw side effect is suppressed, so no cascading
waitlist promotion happens during the clear. -/
theorem C4_clear_phase_clears_listed_only (db : DB)
    (es : List (SignUp × Bool))
    (hnd : (db.signups.map (fun u => u.id)).Nodup)
    (hes : (es.map (fun e => e.1.id)).Nodup)
    (hrows : ∀ e ∈ es, (getSignup db e.1.id).isSome) :
    (∀ e ∈ es, getSignup (clearPhase db es).1 e.1.id
      = some (clearedOf e.1))
    ∧ (∀ pk : Nat, pk ∉ es.map (fun e => e.1.id) →
      getSignup (clearPhase db es).1 pk = getSignup db pk)
    ∧ (clearPhase db es).2 = es.map (fun e => (clearedOf e.1, e.2)) := by
  rw [clearPhase_characterization es db hnd hes hrows]
  have hvout : ∀ p ∈ es.map (fun e => (e.1.id, some (clearedOf e.1))),
      ∀ v, p.2 = some v → v.id = p.1 := by
    intro p hp v hv
    obtain ⟨e, he, rfl⟩ := List.mem_map.mp hp
    dsimp only at hv ⊢
    rw [show v = clearedOf e.1 from by simpa using hv.symm]
    rfl
  refine ⟨?_, ?_, rfl⟩
  · intro e he
    show List.find? (fun u => u.id == e.1.id)
        (applyOutcomes (es.map (fun x => (x.1.id, some (clearedOf x.1))))
          db.signups) = some (clearedOf e.1)
    rw [find?_applyOutcomes _ _ hvout db.signups]
    rw [lookupOutcome_map_self (fun x => some (clearedOf x.1)) es e hes he]
    rw [show (db.signups.find? (fun u => u.id == e.1.id))
        = getSignup db e.1.id from rfl]
    cases hg : getSignup db e.1.id with
    | none => exact absurd (hg ▸ hrows e he) (by simp)
    | some r => rfl
  · intro pk hpk
    show List.find? (fun u => u.id == pk)
        (applyOutcomes (es.map (fun x => (x.1.id, some (clearedOf x.1))))
          db.signups) = getSignup db pk
    rw [find?_applyOutcomes _ _ hvout db.signups]
    rw [lookupOutcome_map_not_mem (fun x => some (clearedOf x.1)) es pk hpk]
    rfl

/-- Closed instance of `C4_clear_phase_clears_listed_only`: clearing
with the single instruction `[(exS3, keep)]` saves `exS3` as
not-on-trip with signals suppressed, and leaves the confirmed `exS1`
row (id 1, not listed) untouched. -/
theorem C4_clear_phase_clears_listed_only_witness :
    getSignup (clearPhase exDB [(exS3, false)]).1 3 = some (clearedOf exS3)
    ∧ getSignup (clearPhase exDB [(exS3, false)]).1 1 = getSignup exDB 1 := by
  have h := C4_clear_phase_clears_listed_only exDB [(exS3, false)]
    (by decide) (by decide) (by decide)
  exact ⟨h.1 (exS3, false) (List.mem_cons_self _ _),
    h.2.1 1 (by decide)⟩

/-! Survivors, placed rows and the re-place outcomes. -/

theorem survivors_ids_subset (es : List (SignUp × Bool)) :
    ∀ pk, pk ∈ (survivors es).map (fun s => s.id) →
      pk ∈ es.map (fun e => e.1.id) := by
  intro pk h
  obtain ⟨s, hs, rfl⟩ := List.mem_map.mp h
  obtain ⟨e, he, rfl⟩ := List.mem_map.mp hs
  exact List.mem_map.mpr ⟨e, (List.mem_filter.mp he).1, rfl⟩

theorem survivors_cons_true (s : SignUp) (rest : List (SignUp × Bool)) :
    survivors ((s, true) :: rest) = survivors rest := by
  unfold survivors
  rw [List.filter_cons_of_neg (by simp)]

theorem survivors_cons_false (s : SignUp) (rest : List (SignUp × Bool)) :
    survivors ((s, false) :: rest) = s :: survivors rest := by
  unfold survivors
  rw [List.filter_cons_of_pos rfl, List.map_cons]

theorem ids_placedRows (cap : Nat) :
    ∀ (es : List (SignUp × Bool)) (c ord : Nat),
      (placedRows cap c ord es).map (fun s => s.id)
        = (survivors es).map (fun s => s.id) := by
  intro es
  induction es with
  | nil => intro c ord; rfl
  | cons e rest ih =>
    intro c ord
    obtain ⟨s, remove⟩ := e
    cases remove with
    | true =>
      simp only [placedRows]
      rw [if_pos trivial, survivors_cons_true]
      exact ih c (ord + 1)
    | false =>
      simp only [placedRows]
      rw [if_neg Bool.false_ne_true, survivors_cons_false,
        List.map_cons, List.map_cons, ih _ (ord + 1)]

theorem mem_placedRows_id (cap : Nat) {es : List (SignUp × Bool)}
    {c ord : Nat} {w : SignUp} (hw : w ∈ placedRows cap c ord es) :
    w.id ∈ es.map (fun e => e.1.id) := by
  refine survivors_ids_subset es w.id ?_
  rw [← ids_placedRows cap es c ord]
  exact List.mem_map.mpr ⟨w, hw, rfl⟩

theorem lookup_rePlaceOutcomes_mem_placedRows (cap : Nat) :
    ∀ (es : List (SignUp × Bool)) (c ord : Nat),
      (es.map (fun e => e.1.id)).Nodup →
      ∀ w ∈ placedRows cap c ord es,
        lookupOutcome (rePlaceOutcomes cap c ord es) w.id = some (some w) := by
  intro es
  induction es with
  | nil => intro c ord _ w hw; exact absurd hw (by simp [placedRows])
  | cons e rest ih =>
    intro c ord hnd w hw
    obtain ⟨s, remove⟩ := e
    rw [List.map_cons, List.nodup_cons] at hnd
    cases remove with
    | true =>
      simp only [placedRows] at hw
      rw [if_pos trivial] at hw
      simp only [rePlaceOutcomes]
      rw [if_pos trivial, lookupOutcome_cons,
        if_neg (fun hh => hnd.1 (by rw [hh]; exact mem_placedRows_id cap hw))]
      exact ih _ _ hnd.2 w hw
    | false =>
      simp only [placedRows] at hw
      rw [if_neg Bool.false_ne_true] at hw
      simp only [rePlaceOutcomes]
      rw [if_neg Bool.false_ne_true, lookupOutcome_cons]
      rcases List.mem_cons.mp hw with rfl | hmem
      · rw [if_pos rfl]
      · rw [if_neg
          (fun hh => hnd.1 (by rw [hh]; exact mem_placedRows_id cap hmem))]
        exact ih _ _ hnd.2 w hmem

theorem rePlaceOutcomes_value_trip (cap : Nat) (tid : Nat) :
    ∀ (es : List (SignUp × Bool)) (c ord : Nat),
      (∀ e ∈ es, e.1.trip = tid) →
      ∀ p ∈ rePlaceOutcomes cap c ord es, ∀ v, p.2 = some v → v.trip = tid := by
  intro es
  induction es with
  | nil => intro c ord _ p hp; exact absurd hp (by simp [rePlaceOutcomes])
  | cons e rest ih =>
    intro c ord htrips p hp v hv
    obtain ⟨s, remove⟩ := e
    cases remove with
    | true =>
      simp only [rePlaceOutcomes] at hp
      rw [if_pos trivial] at hp
      rcases List.mem_cons.mp hp with rfl | hmem
      · exact absurd hv (by simp)
      · exact ih _ _ (fun e he => htrips e (List.mem_cons_of_mem _ he))
          p hmem v hv
    | false =>
      simp only [rePlaceOutcomes] at hp
      rw [if_neg Bool.false_ne_true] at hp
      rcases List.mem_cons.mp hp with rfl | hmem
      · dsimp only at hv
        rw [show v = { s with
            on_trip := decide (c < cap),
            order := some (ord : Int) } from by simpa using hv.symm]
        exact htrips (s, false) (List.mem_cons_self _ _)
      · exact ih _ _ (fun e he => htrips e (List.mem_cons_of_mem _ he))
          p hmem v hv

theorem lookup_rePlaceOutcomes_confirmed (cap : Nat) :
    ∀ (es : List (SignUp × Bool)) (c ord : Nat) (pk : Nat),
      (es.map (fun e => e.1.id)).Nodup →
      ((∃ v, lookupOutcome (rePlaceOutcomes cap c ord es) pk
          = some (some v) ∧ v.on_trip = true)
        ↔ pk ∈ ((survivors es).take (cap - c)).map (fun s => s.id)) := by
  intro es
  induction es with
  | nil =>
    intro c ord pk _
    constructor
    · rintro ⟨v, hv, -⟩
      exact absurd hv (by simp [rePlaceOutcomes, lookupOutcome])
    · intro h
      exact absurd h (by simp [survivors])
  | cons e rest ih =>
    intro c ord pk hnd
    obtain ⟨s, remove⟩ := e
    rw [List.map_cons, List.nodup_cons] at hnd
    cases remove with
    | true =>
      simp only [rePlaceOutcomes]
      rw [if_pos trivial, lookupOutcome_cons, survivors_cons_true]
      by_cases hpk : s.id = pk
      · rw [if_pos hpk]
        constructor
        · rintro ⟨v, hv, -⟩
          exact absurd hv (by simp)
        · intro h
          have : pk ∈ (survivors rest).map (fun x => x.id) :=
            List.mem_map.mp h |>.elim
              (fun x hx => List.mem_map.mpr
                ⟨x, List.mem_of_mem_take hx.1, hx.2⟩)
          exact absurd (hpk ▸ survivors_ids_subset rest pk this) hnd.1
      · rw [if_neg hpk]
        exact ih c (ord + 1) pk hnd.2
    | false =>
      simp only [rePlaceOutcomes]
      rw [if_neg Bool.false_ne_true, lookupOutcome_cons, survivors_cons_false]
      by_cases hpk : s.id = pk
      · rw [if_pos hpk]
        constructor
        · rintro ⟨v, hv, hot⟩
          have hveq : v = { s with
              on_trip := decide (c < cap), order := some (ord : Int) } := by
            simpa using hv.symm
          rw [hveq] at hot
          have hc : c < cap := of_decide_eq_true hot
          have hcap : 0 < cap - c := by omega
          obtain ⟨m, hm⟩ := Nat.exists_eq_succ_of_ne_zero
            (Nat.pos_iff_ne_zero.mp hcap)
          rw [hm, List.take_succ_cons, List.map_cons]
          exact hpk ▸ List.mem_cons_self _ _
        · intro h
          by_cases hc : c < cap
          · refine ⟨{ s with
              on_trip := decide (c < cap), order := some (ord : Int) }, rfl, ?_⟩
            simpa using hc
          · have hz : cap - c = 0 := by omega
            rw [hz] at h
            exact absurd h (by simp)
      · rw [if_neg hpk]
        by_cases hc : c < cap
        · rw [if_pos hc] at *
          have hstep := ih (c + 1) (ord + 1) pk hnd.2
          rw [show cap - (c + 1) = cap - c - 1 from by omega] at hstep
          rw [hstep]
          obtain ⟨m, hm⟩ := Nat.exists_eq_succ_of_ne_zero
            (Nat.pos_iff_ne_zero.mp (show 0 < cap - c from by omega))
          rw [hm, List.take_succ_cons, List.map_cons,
            show m = cap - c - 1 from by omega]
          constructor
          · exact fun h => List.mem_cons_of_mem _ h
          · intro h
            rcases List.mem_cons.mp h with h | h
            · exact absurd h.symm hpk
            · exact h
        · rw [if_neg hc] at *
          have hstep := ih c (ord + 1) pk hnd.2
          rw [hstep]
          rw [show cap - c = 0 from by omega]
          simp

theorem placedRows_filter_not_on_trip (cap : Nat) :
    ∀ (es : List (SignUp × Bool)) (c ord : Nat),
      (placedRows cap c ord es).filter (fun w => !w.on_trip)
        = (placedRows cap c ord es).drop (cap - c) := by
  intro es
  induction es with
  | nil => intro c ord; simp [placedRows]
  | cons e rest ih =>
    intro c ord
    obtain ⟨s, remove⟩ := e
    cases remove with
    | true =>
      simp only [placedRows]
      rw [if_pos trivial]
      exact ih c (ord + 1)
    | false =>
      simp only [placedRows]
      rw [if_neg Bool.false_ne_true]
      by_cases hc : c < cap
      · rw [if_pos hc]
        rw [List.filter_cons_of_neg (by simp [hc])]
        obtain ⟨m, hm⟩ := Nat.exists_eq_succ_of_ne_zero
          (Nat.pos_iff_ne_zero.mp (show 0 < cap - c from by omega))
        rw [hm, List.drop_succ_cons, show m = cap - (c + 1) from by omega]
        exact ih (c + 1) (ord + 1)
      · rw [if_neg hc]
        rw [List.filter_cons_of_pos (by simp [hc])]
        rw [show cap - c = 0 from by omega, List.drop_zero]
        have := ih c (ord + 1)
        rw [show cap - c = 0 from by omega, List.drop_zero] at this
        rw [this]

theorem placedRows_order_ge (cap : Nat) :
    ∀ (es : List (SignUp × Bool)) (c ord : Nat),
      ∀ w ∈ placedRows cap c ord es,
        ∃ o : Int, w.order = some o ∧ (ord : Int) ≤ o := by
  intro es
  induction es with
  | nil => intro c ord w hw; exact absurd hw (by simp [placedRows])
  | cons e rest ih =>
    intro c ord w hw
    obtain ⟨s, remove⟩ := e
    cases remove with
    | true =>
      simp only [placedRows] at hw
      rw [if_pos trivial] at hw
      obtain ⟨o, ho, hge⟩ := ih c (ord + 1) w hw
      exact ⟨o, ho, by omega⟩
    | false =>
      simp only [placedRows] at hw
      rw [if_neg Bool.false_ne_true] at hw
      rcases List.mem_cons.mp hw with rfl | hmem
      · exact ⟨(ord : Int), rfl, le_refl _⟩
      · obtain ⟨o, ho, hge⟩ := ih _ (ord + 1) w hmem
        exact ⟨o, ho, by omega⟩

theorem placedRows_orders_strict (cap : Nat) :
    ∀ (es : List (SignUp × Bool)) (c ord : Nat),
      List.Pairwise (fun a b => ∃ oa ob : Int,
        a.order = some oa ∧ b.order = some ob ∧ oa < ob)
        (placedRows cap c ord es) := by
  intro es
  induction es with
  | nil => intro c ord; simp [placedRows]
  | cons e rest ih =>
    intro c ord
    obtain ⟨s, remove⟩ := e
    cases remove with
    | true =>
      simp only [placedRows]
      rw [if_pos trivial]
      exact ih c (ord + 1)
    | false =>
      simp only [placedRows]
      rw [if_neg Bool.false_ne_true]
      refine List.Pairwise.cons ?_ (ih _ (ord + 1))
      intro b hb
      obtain ⟨o, ho, hge⟩ := placedRows_order_ge cap rest _ (ord + 1) b hb
      exact ⟨(ord : Int), o, rfl, ho, by omega⟩

/-! The insertion sort used by the derived orderings. -/

theorem priorityLe_total (a b : SignUp) :
    priorityLe a b = true ∨ priorityLe b a = true := by
  simp only [priorityLe, Bool.or_eq_true, Bool.and_eq_true,
    decide_eq_true_eq, beq_iff_eq]
  omega

theorem priorityLe_trans {a b c : SignUp} (h1 : priorityLe a b = true)
    (h2 : priorityLe b c = true) : priorityLe a c = true := by
  simp only [priorityLe, Bool.or_eq_true, Bool.and_eq_true,
    decide_eq_true_eq, beq_iff_eq] at *
  omega

theorem wlLe_total (a b : SignUp) : wlLe a b = true ∨ wlLe b a = true := by
  unfold wlLe
  cases ha : a.order with
  | none =>
    cases hb : b.order with
    | none => exact priorityLe_total a b
    | some rb => right; rfl
  | some ra =>
    cases hb : b.order with
    | none => left; rfl
    | some rb =>
      simp only [Bool.or_eq_true, Bool.and_eq_true, decide_eq_true_eq,
        beq_iff_eq]
      rcases Int.lt_trichotomy ra rb with h | h | h
      · left; left; exact h
      · subst h
        rcases priorityLe_total a b with hp | hp
        · exact Or.inl (Or.inr ⟨rfl, hp⟩)
        · exact Or.inr (Or.inr ⟨rfl, hp⟩)
      · right; left; exact h

theorem wlLe_trans (a b c : SignUp) :
    wlLe a b = true → wlLe b c = true → wlLe a c = true := by
  unfold wlLe
  cases a.order <;> cases b.order <;> cases c.order <;> dsimp only <;>
    intro h1 h2
  · exact priorityLe_trans h1 h2
  · exact absurd h2 Bool.false_ne_true
  · exact absurd h1 Bool.false_ne_true
  · exact absurd h1 Bool.false_ne_true
  · rfl
  · exact absurd h2 Bool.false_ne_true
  · rfl
  · simp only [Bool.or_eq_true, Bool.and_eq_true, decide_eq_true_eq,
      beq_iff_eq] at h1 h2 ⊢
    rcases h1 with h1 | ⟨rfl, hp1⟩ <;> rcases h2 with h2 | ⟨rfl, hp2⟩ <;>
      first
      | (left; omega)
      | (exact Or.inr ⟨rfl, priorityLe_trans hp1 hp2⟩)

theorem mem_insertLe {α : Type} (le : α → α → Bool) (x : α) :
    ∀ (l : List α) (y : α), y ∈ insertLe le x l ↔ y = x ∨ y ∈ l := by
  intro l
  induction l with
  | nil => intro y; simp [insertLe]
  | cons z zs ih =>
    intro y
    unfold insertLe
    by_cases h : le x z = true
    · rw [if_pos h]
      simp [List.mem_cons]
    · rw [if_neg h]
      rw [List.mem_cons, ih y, List.mem_cons]
      tauto

theorem mem_sortLe {α : Type} (le : α → α → Bool) :
    ∀ (l : List α) (y : α), y ∈ sortLe le l ↔ y ∈ l := by
  intro l
  induction l with
  | nil => intro y; simp [sortLe]
  | cons z zs ih =>
    intro y
    unfold sortLe
    rw [mem_insertLe, ih y, List.mem_cons]

theorem pairwise_insertLe {α : Type} (le : α → α → Bool)
    (htot : ∀ a b, le a b = true ∨ le b a = true)
    (htr : ∀ a b c, le a b = true → le b c = true → le a c = true) (x : α) :
    ∀ l : List α, List.Pairwise (fun a b => le a b = true) l →
      List.Pairwise (fun a b => le a b = true) (insertLe le x l) := by
  intro l
  induction l with
  | nil => intro _; exact List.pairwise_singleton _ _
  | cons z zs ih =>
    intro hp
    rw [List.pairwise_cons] at hp
    unfold insertLe
    by_cases h : le x z = true
    · rw [if_pos h]
      refine List.Pairwise.cons ?_ (List.Pairwise.cons hp.1 hp.2)
      intro b hb
      rcases List.mem_cons.mp hb with rfl | hmem
      · exact h
      · exact htr x z b h (hp.1 b hmem)
    · rw [if_neg h]
      refine List.Pairwise.cons ?_ (ih hp.2)
      intro b hb
      rcases (mem_insertLe le x zs b).mp hb with rfl | hmem
      · rcases htot b z with hbz | hzb
        · exact absurd hbz h
        · exact hzb
      · exact hp.1 b hmem

theorem sortLe_pairwise {α : Type} (le : α → α → Bool)
    (htot : ∀ a b, le a b = true ∨ le b a = true)
    (htr : ∀ a b c, le a b = true → le b c = true → le a c = true) :
    ∀ l : List α, List.Pairwise (fun a b => le a b = true) (sortLe le l) := by
  intro l
  induction l with
  | nil => exact List.Pairwise.nil
  | cons z zs ih => exact pairwise_insertLe le htot htr z _ ih

theorem pairwise_strict_sublist {α : Type} {le : α → α → Bool} :
    ∀ (xs l : List α),
      List.Pairwise (fun a b => le a b = true) l →
      List.Pairwise (fun a b => le a b = true ∧ le b a = false) xs →
      (∀ x ∈ xs, x ∈ l) → List.Sublist xs l := by
  intro xs
  induction xs with
  | nil => intro l _ _ _; exact List.nil_sublist l
  | cons x ys ih =>
    intro l hl hxs hmem
    rw [List.pairwise_cons] at hxs
    obtain ⟨l1, l2, rfl⟩ := List.append_of_mem (hmem x (List.mem_cons_self _ _))
    rw [List.pairwise_append] at hl
    have hl2 : List.Pairwise (fun a b => le a b = true) l2 :=
      (List.pairwise_cons.mp hl.2.1).2
    have hys : ∀ y ∈ ys, y ∈ l2 := by
      intro y hy
      have hyl := hmem y (List.mem_cons_of_mem _ hy)
      have hstrict := hxs.1 y hy
      rcases List.mem_append.mp hyl with h1 | h2
      · exact absurd (hl.2.2 y h1 x (List.mem_cons_self _ _))
          (by rw [hstrict.2]; exact Bool.false_ne_true)
      · rcases List.mem_cons.mp h2 with rfl | hmem2
        · exact absurd hstrict.1 (by rw [hstrict.2]; exact Bool.false_ne_true)
        · exact hmem2
    have hsub : List.Sublist ys l2 := ih l2 hl2 hxs.2 hys
    exact (hsub.cons₂ x).trans (List.sublist_append_right l1 (x :: l2))

theorem rePlaceOutcomes_value_id (cap : Nat) :
    ∀ (es : List (SignUp × Bool)) (c ord : Nat),
      ∀ p ∈ rePlaceOutcomes cap c ord es, ∀ v, p.2 = some v → v.id = p.1 := by
  intro es
  induction es with
  | nil => intro c ord p hp; exact absurd hp (by simp [rePlaceOutcomes])
  | cons e rest ih =>
    intro c ord p hp v hv
    obtain ⟨s, remove⟩ := e
    cases remove with
    | true =>
      simp only [rePlaceOutcomes] at hp
      rw [if_pos trivial] at hp
      rcases List.mem_cons.mp hp with rfl | hmem
      · exact absurd hv (by simp)
      · exact ih _ _ p hmem v hv
    | false =>
      simp only [rePlaceOutcomes] at hp
      rw [if_neg Bool.false_ne_true] at hp
      rcases List.mem_cons.mp hp with rfl | hmem
      · dsimp only at hv ⊢
        rw [show v = { s with
            on_trip := decide (c < cap),
            order := some (ord : Int) } from by simpa using hv.symm]
      · exact ih _ _ p hmem v hv

theorem placedRows_trip (cap : Nat) (tid : Nat) :
    ∀ (es : List (SignUp × Bool)) (c ord : Nat),
      (∀ e ∈ es, e.1.trip = tid) →
      ∀ w ∈ placedRows cap c ord es, w.trip = tid := by
  intro es
  induction es with
  | nil => intro c ord _ w hw; exact absurd hw (by simp [placedRows])
  | cons e rest ih =>
    intro c ord htrips w hw
    obtain ⟨s, remove⟩ := e
    cases remove with
    | true =>
      simp only [placedRows] at hw
      rw [if_pos trivial] at hw
      exact ih _ _ (fun e he => htrips e (List.mem_cons_of_mem _ he)) w hw
    | false =>
      simp only [placedRows] at hw
      rw [if_neg Bool.false_ne_true] at hw
      rcases List.mem_cons.mp hw with rfl | hmem
      · exact htrips (s, false) (List.mem_cons_self _ _)
      · exact ih _ _ (fun e he => htrips e (List.mem_cons_of_mem _ he)) w hmem

theorem wlLe_strict_of_lt {a b : SignUp} {oa ob : Int}
    (ha : a.order = some oa) (hb : b.order = some ob) (h : oa < ob) :
    wlLe a b = true ∧ wlLe b a = false := by
  unfold wlLe
  rw [ha, hb]
  dsimp only
  constructor
  · simp [h]
  · simp only [Bool.or_eq_false_iff, Bool.and_eq_false_iff]
    constructor
    · simp; omega
    · left; simp; omega

theorem survivors_cleared (es : List (SignUp × Bool)) :
    survivors (es.map (fun e => (clearedOf e.1, e.2)))
      = (survivors es).map clearedOf := by
  unfold survivors
  rw [List.filter_map, List.map_map, List.map_map]
  rfl

/-- C2 (amended): provided every instruction references a current signup
row of the event, the instruction ids are distinct, and every
currently-confirmed signup of the event appears in the instruction list,
a successful batch run confirms exactly the first `capacity` surviving
non-removed instructions (in the supplied order) and places every other
survivor on the waitlist in that same relative order. -/
theorem C2_batch_confirmed_and_waitlist (tid : Nat) (t : Trip) (db : DB)
    (es : List (SignUp × Bool))
    (hg : getTrip db tid = some t)
    (hnd : (db.signups.map (fun u => u.id)).Nodup)
    (hes : (es.map (fun e => e.1.id)).Nodup)
    (hinv : ∀ e ∈ es, e.1.trip = tid ∧ getSignup db e.1.id = some e.1)
    (hconf : ∀ r ∈ db.signups, r.trip = tid → r.on_trip = true →
      r.id ∈ es.map (fun e => e.1.id)) :
    (∀ pk : Nat, (∃ v, getSignup (update_signups db es) pk = some v
        ∧ v.trip = tid ∧ v.on_trip = true)
      ↔ pk ∈ ((survivors es).take t.maximum_participants.toNat).map
          (fun s => s.id))
    ∧ List.Sublist
        (((survivors es).drop t.maximum_participants.toNat).map
          (fun s => s.id))
        ((waitlisted (update_signups db es) tid).map (fun s => s.id)) := by
  rw [update_signups_characterization t db es tid hg hnd hes hinv hconf]
  have hces_nd : ((es.map (fun e => (clearedOf e.1, e.2))).map
      (fun e => e.1.id)).Nodup := by
    rw [List.map_map]; exact hes
  have hvout := rePlaceOutcomes_value_id t.maximum_participants.toNat
    (es.map (fun e => (clearedOf e.1, e.2))) 0 0
  have hids_out : (rePlaceOutcomes t.maximum_participants.toNat 0 0
      (es.map (fun e => (clearedOf e.1, e.2)))).map (fun p => p.1)
      = es.map (fun e => e.1.id) := by
    rw [ids_rePlaceOutcomes, List.map_map]
    rfl
  have htrips : ∀ e ∈ es.map (fun e => (clearedOf e.1, e.2)),
      e.1.trip = tid := by
    intro e he
    obtain ⟨e0, he0, rfl⟩ := List.mem_map.mp he
    exact (hinv e0 he0).1
  have htake_ids : ((survivors (es.map (fun e => (clearedOf e.1, e.2)))).take
        t.maximum_participants.toNat).map (fun s => s.id)
      = ((survivors es).take t.maximum_participants.toNat).map
          (fun s => s.id) := by
    rw [survivors_cleared, ← List.map_take, List.map_map]
    rfl
  have hdrop_ids : ((survivors (es.map (fun e => (clearedOf e.1, e.2)))).drop
        t.maximum_participants.toNat).map (fun s => s.id)
      = ((survivors es).drop t.maximum_participants.toNat).map
          (fun s => s.id) := by
    rw [survivors_cleared, ← List.map_drop, List.map_map]
    rfl
  constructor
  · intro pk
    have hfind : getSignup { db with
        signups := applyOutcomes
          (rePlaceOutcomes t.maximum_participants.toNat 0 0
            (es.map (fun e => (clearedOf e.1, e.2)))) db.signups } pk
        = match lookupOutcome (rePlaceOutcomes t.maximum_participants.toNat 0 0
            (es.map (fun e => (clearedOf e.1, e.2)))) pk with
          | some none => none
          | some (some v) =>
            if (db.signups.find? (fun u => u.id == pk)).isSome then some v
            else none
          | none => db.signups.find? (fun u => u.id == pk) :=
      find?_applyOutcomes _ pk hvout db.signups
    have hA1 := lookup_rePlaceOutcomes_confirmed t.maximum_participants.toNat
      (es.map (fun e => (clearedOf e.1, e.2))) 0 0 pk hces_nd
    rw [Nat.sub_zero, htake_ids] at hA1
    rw [← hA1]
    cases hm : lookupOutcome (rePlaceOutcomes t.maximum_participants.toNat 0 0
        (es.map (fun e => (clearedOf e.1, e.2)))) pk with
    | none =>
      rw [hm] at hfind
      constructor
      · rintro ⟨v, hv, hvt, hvo⟩
        rw [hfind] at hv
        have hvmem : v ∈ db.signups := List.mem_of_find?_eq_some hv
        have hvid : v.id = pk := by simpa using List.find?_some hv
        have hpk_es : pk ∈ es.map (fun e => e.1.id) :=
          hvid ▸ hconf v hvmem hvt hvo
        obtain ⟨o, ho⟩ := @lookupOutcome_isSome _ pk
          (by rw [hids_out]; exact hpk_es)
        rw [hm] at ho
        exact absurd ho (by simp)
      · rintro ⟨v, hv, -⟩
        exact absurd hv (by simp)
    | some o =>
      cases o with
      | none =>
        rw [hm] at hfind
        dsimp only at hfind
        constructor
        · rintro ⟨v, hv, -, -⟩
          rw [hfind] at hv
          exact absurd hv (by simp)
        · rintro ⟨v, hv, -⟩
          exact absurd (show (some (none : Option SignUp))
            = some (some v) from hv) (by simp)
      | some w =>
        rw [hm] at hfind
        dsimp only at hfind
        obtain ⟨p, hpmem, hp1, hp2⟩ := lookupOutcome_eq_some_mem hm
        have hwtrip : w.trip = tid :=
          rePlaceOutcomes_value_trip t.maximum_participants.toNat tid
            (es.map (fun e => (clearedOf e.1, e.2))) 0 0 htrips p hpmem w hp2
        have hpk_es : pk ∈ es.map (fun e => e.1.id) := by
          rw [← hids_out]
          exact hp1 ▸ List.mem_map.mpr ⟨p, hpmem, rfl⟩
        obtain ⟨e0, he0, he0id⟩ := List.mem_map.mp hpk_es
        have hrow : getSignup db pk = some e0.1 := he0id ▸ (hinv e0 he0).2
        have hrow_some : (db.signups.find? (fun u => u.id == pk)).isSome := by
          rw [show db.signups.find? (fun u => u.id == pk)
              = getSignup db pk from rfl, hrow]
          rfl
        rw [if_pos hrow_some] at hfind
        constructor
        · rintro ⟨v, hv, -, hvo⟩
          rw [hfind] at hv
          have : w = v := by simpa using hv
          exact ⟨w, rfl, this ▸ hvo⟩
        · rintro ⟨v, hv, hvo⟩
          have : v = w := by
            simpa using hv.symm
          exact ⟨w, hfind, hwtrip, this ▸ hvo⟩
  · rw [← hdrop_ids, List.map_drop,
      ← ids_placedRows t.maximum_participants.toNat
        (es.map (fun e => (clearedOf e.1, e.2))) 0 0,
      ← List.map_drop]
    refine List.Sublist.map _ ?_
    refine pairwise_strict_sublist _ _
      (sortLe_pairwise wlLe wlLe_total wlLe_trans _) ?_ ?_
    · refine List.Pairwise.imp ?_
        (List.Pairwise.sublist (List.drop_sublist _ _)
          (placedRows_orders_strict t.maximum_participants.toNat
            (es.map (fun e => (clearedOf e.1, e.2))) 0 0))
      rintro a b ⟨oa, ob, ha, hb, hlt⟩
      have := wlLe_strict_of_lt ha hb hlt
      exact ⟨this.1, this.2⟩
    · intro w hw
      have hwP : w ∈ placedRows t.maximum_participants.toNat 0 0
          (es.map (fun e => (clearedOf e.1, e.2))) :=
        List.mem_of_mem_drop hw
      have hlk := lookup_rePlaceOutcomes_mem_placedRows
        t.maximum_participants.toNat
        (es.map (fun e => (clearedOf e.1, e.2))) 0 0 hces_nd w hwP
      have hwid : w.id ∈ es.map (fun e => e.1.id) := by
        have h1 := mem_placedRows_id t.maximum_participants.toNat hwP
        rw [List.map_map] at h1
        exact h1
      obtain ⟨e0, he0, he0id⟩ := List.mem_map.mp hwid
      have hrow : getSignup db w.id = some e0.1 := he0id ▸ (hinv e0 he0).2
      have hrow_some : (db.signups.find? (fun u => u.id == w.id)).isSome := by
        rw [show db.signups.find? (fun u => u.id == w.id)
            = getSignup db w.id from rfl, hrow]
        rfl
      have hfindw : getSignup { db with
          signups := applyOutcomes
            (rePlaceOutcomes t.maximum_participants.toNat 0 0
              (es.map (fun e => (clearedOf e.1, e.2)))) db.signups } w.id
          = some w := by
        have h0 := find?_applyOutcomes
          (rePlaceOutcomes t.maximum_participants.toNat 0 0
            (es.map (fun e => (clearedOf e.1, e.2)))) w.id hvout db.signups
        rw [hlk] at h0
        dsimp only at h0
        rw [show getSignup { db with
            signups := applyOutcomes
              (rePlaceOutcomes t.maximum_participants.toNat 0 0
                (es.map (fun e => (clearedOf e.1, e.2)))) db.signups } w.id
            = (applyOutcomes
              (rePlaceOutcomes t.maximum_participants.toNat 0 0
                (es.map (fun e => (clearedOf e.1, e.2)))) db.signups).find?
              (fun u => u.id == w.id) from rfl, h0, if_pos hrow_some]
      have hmem_rows : w ∈ (applyOutcomes
          (rePlaceOutcomes t.maximum_participants.toNat 0 0
            (es.map (fun e => (clearedOf e.1, e.2)))) db.signups) :=
        List.mem_of_find?_eq_some hfindw
      have hwot : w.on_trip = false := by
        have hmemf : w ∈ (placedRows t.maximum_participants.toNat 0 0
            (es.map (fun e => (clearedOf e.1, e.2)))).filter
              (fun x => !x.on_trip) := by
          rw [placedRows_filter_not_on_trip, Nat.sub_zero]
          exact hw
        simpa using (List.mem_filter.mp hmemf).2
      have hwtrip : w.trip = tid :=
        placedRows_trip t.maximum_participants.toNat tid
          (es.map (fun e => (clearedOf e.1, e.2))) 0 0 htrips w hwP
      unfold waitlisted
      rw [mem_sortLe]
      refine List.mem_filter.mpr ⟨hmem_rows, ?_⟩
      rw [hwtrip, hwot]
      simp

/-- C2 counterexample: the batch outcome is not independent of the
event's prior confirmed state.  Submitting the single non-removed
instruction for signup 3 on a full trip (capacity 2, signups 1 and 2
confirmed) should, per the claim, leave signup 3 as the sole confirmed
entry; in fact signup 3 is waitlisted and signup 1 stays confirmed. -/
theorem C2_regardless_of_prior_state_counterexample :
    3 ∈ ((survivors [(exS3, false)]).take
        exTrip.maximum_participants.toNat).map (fun s => s.id)
    ∧ (getSignup (update_signups exDB [(exS3, false)]) 3).map
        (fun v => v.on_trip) = some false
    ∧ (getSignup (update_signups exDB [(exS3, false)]) 1).map
        (fun v => v.on_trip) = some true := by
  decide

/-- Witness for C2: the amended theorem applied to the example store
with a full instruction list covering every confirmed signup. -/
theorem C2_batch_confirmed_and_waitlist_witness :
    (∀ pk : Nat, (∃ v, getSignup (update_signups exDB
        [(exS1, false), (exS2, true), (exS3, false), (exS4, false)]) pk
          = some v
        ∧ v.trip = 1 ∧ v.on_trip = true)
      ↔ pk ∈ ((survivors [(exS1, false), (exS2, true), (exS3, false),
          (exS4, false)]).take exTrip.maximum_participants.toNat).map
          (fun s => s.id))
    ∧ List.Sublist
        (((survivors [(exS1, false), (exS2, true), (exS3, false),
          (exS4, false)]).drop exTrip.maximum_participants.toNat).map
          (fun s => s.id))
        ((waitlisted (update_signups exDB
          [(exS1, false), (exS2, true), (exS3, false), (exS4, false)]) 1).map
          (fun s => s.id)) :=
  C2_batch_confirmed_and_waitlist 1 exTrip exDB
    [(exS1, false), (exS2, true), (exS3, false), (exS4, false)]
    (by decide) (by decide) (by decide) (by decide) (by decide)

theorem find?_self_of_nodup :
    ∀ {l : List SignUp}, (l.map (fun u => u.id)).Nodup →
      ∀ {r : SignUp}, r ∈ l → l.find? (fun u => u.id == r.id) = some r := by
  intro l
  induction l with
  | nil => intro _ r hr; exact absurd hr (List.not_mem_nil r)
  | cons a l' ih =>
    intro hnd r hr
    have hnd' : (a.id ∉ l'.map (fun u => u.id))
        ∧ (l'.map (fun u => u.id)).Nodup := List.nodup_cons.mp hnd
    rcases List.mem_cons.mp hr with rfl | hr'
    · exact find?_cons_pos' (fun u => u.id == r.id) r l' (by simp)
    · have hne : (a.id == r.id) = false := by
        by_contra hcontra
        have heq : a.id = r.id := by
          cases hv : (a.id == r.id) with
          | false => exact absurd hv hcontra
          | true => exact beq_iff_eq.mp hv
        exact hnd'.1 (heq ▸ List.mem_map.mpr ⟨r, hr', rfl⟩)
      rw [find?_cons_neg' (fun u => u.id == r.id) a l' hne]
      exact ih hnd'.2 hr'

theorem confirmedCount_append (db : DB) (s : SignUp) (tid : Nat) :
    confirmedCount { db with signups := db.signups ++ [s] } tid
      = confirmedCount db tid
        + (if (s.trip == tid && s.on_trip) = true then 1 else 0) := by
  unfold confirmedCount
  dsimp only
  rw [List.filter_append, List.length_append]
  cases h : (s.trip == tid && s.on_trip) <;> simp [List.filter, h]

theorem saveSignup_new (db : DB) (s : SignUp)
    (hnew : getSignup db s.id = none) :
    saveSignup db s = { db with signups := db.signups ++ [s] } := by
  have hany : db.signups.any (fun u => u.id == s.id) = false := by
    rw [List.any_eq_false]
    intro x hx
    exact List.find?_eq_none.mp hnew x hx
  unfold saveSignup
  rw [hnew]
  dsimp only
  rw [if_neg (by simp)]
  unfold saveSignupRow
  rw [hany]
  rw [if_neg Bool.false_ne_true]

theorem trip_or_wait_capacity (db : DB) (s : SignUp) (t : Trip) (tmbo : Bool)
    (hg : getTrip db s.trip = some t)
    (hnew : getSignup db s.id = none)
    (hle : confirmedCount db s.trip ≤ t.maximum_participants.toNat) :
    confirmedCount (trip_or_wait db s tmbo).1 s.trip
      ≤ t.maximum_participants.toNat := by
  unfold trip_or_wait
  rw [hg]
  dsimp only
  cases hob : tmbo && !t.signups_open with
  | false =>
    rw [if_neg Bool.false_ne_true]
    by_cases hc : confirmedCount db s.trip < t.maximum_participants.toNat
    · rw [if_pos hc]
      dsimp only
      rw [saveSignup_new db { s with on_trip := true } hnew]
      rw [confirmedCount_append]
      simp only [beq_self_eq_true, Bool.and_true, if_pos]
      omega
    · rw [if_neg hc]
      dsimp only
      rw [saveSignup_new db
        { s with on_trip := false, order := some (tailRank db s.trip + 1) }
        hnew]
      rw [confirmedCount_append]
      simp only [Bool.and_false]
      simpa using hle
  | true =>
    rw [if_pos rfl]
    exact hle

theorem batch_confirmed_mem_take (tid : Nat) (t : Trip) (db : DB)
    (es : List (SignUp × Bool))
    (hg : getTrip db tid = some t)
    (hnd : (db.signups.map (fun u => u.id)).Nodup)
    (hes : (es.map (fun e => e.1.id)).Nodup)
    (hinv : ∀ e ∈ es, e.1.trip = tid ∧ getSignup db e.1.id = some e.1)
    (hconf : ∀ r ∈ db.signups, r.trip = tid → r.on_trip = true →
      r.id ∈ es.map (fun e => e.1.id)) :
    ∀ pk v, getSignup (update_signups db es) pk = some v →
      v.trip = tid → v.on_trip = true →
      pk ∈ ((survivors es).take t.maximum_participants.toNat).map
        (fun s => s.id) := by
  intro pk v hv hvt hvo
  rw [update_signups_characterization t db es tid hg hnd hes hinv hconf] at hv
  have hces_nd : ((es.map (fun e => (clearedOf e.1, e.2))).map
      (fun e => e.1.id)).Nodup := by
    rw [List.map_map]; exact hes
  have hvout := rePlaceOutcomes_value_id t.maximum_participants.toNat
    (es.map (fun e => (clearedOf e.1, e.2))) 0 0
  have hids_out : (rePlaceOutcomes t.maximum_participants.toNat 0 0
      (es.map (fun e => (clearedOf e.1, e.2)))).map (fun p => p.1)
      = es.map (fun e => e.1.id) := by
    rw [ids_rePlaceOutcomes, List.map_map]
    rfl
  have htake_ids : ((survivors (es.map (fun e => (clearedOf e.1, e.2)))).take
        t.maximum_participants.toNat).map (fun s => s.id)
      = ((survivors es).take t.maximum_participants.toNat).map
          (fun s => s.id) := by
    rw [survivors_cleared, ← List.map_take, List.map_map]
    rfl
  have hfind : getSignup { db with
      signups := applyOutcomes
        (rePlaceOutcomes t.maximum_participants.toNat 0 0
          (es.map (fun e => (clearedOf e.1, e.2)))) db.signups } pk
      = match lookupOutcome (rePlaceOutcomes t.maximum_participants.toNat 0 0
          (es.map (fun e => (clearedOf e.1, e.2)))) pk with
        | some none => none
        | some (some w) =>
          if (db.signups.find? (fun u => u.id == pk)).isSome then some w
          else none
        | none => db.signups.find? (fun u => u.id == pk) :=
    find?_applyOutcomes _ pk hvout db.signups
  have hA1 := lookup_rePlaceOutcomes_confirmed t.maximum_participants.toNat
    (es.map (fun e => (clearedOf e.1, e.2))) 0 0 pk hces_nd
  rw [Nat.sub_zero, htake_ids] at hA1
  rw [← hA1]
  cases hm : lookupOutcome (rePlaceOutcomes t.maximum_participants.toNat 0 0
      (es.map (fun e => (clearedOf e.1, e.2)))) pk with
  | none =>
    rw [hm] at hfind
    rw [hfind] at hv
    have hvmem : v ∈ db.signups := List.mem_of_find?_eq_some hv
    have hvid : v.id = pk := by simpa using List.find?_some hv
    have hpk_es : pk ∈ es.map (fun e => e.1.id) :=
      hvid ▸ hconf v hvmem hvt hvo
    obtain ⟨o, ho⟩ := @lookupOutcome_isSome _ pk
      (by rw [hids_out]; exact hpk_es)
    rw [hm] at ho
    exact absurd ho (by simp)
  | some o =>
    cases o with
    | none =>
      rw [hm] at hfind
      dsimp only at hfind
      rw [hfind] at hv
      exact absurd hv (by simp)
    | some w =>
      rw [hm] at hfind
      dsimp only at hfind
      by_cases hsome : (db.signups.find? (fun u => u.id == pk)).isSome = true
      · rw [if_pos hsome] at hfind
        rw [hfind] at hv
        have hwv : w = v := by simpa using hv
        exact ⟨w, rfl, hwv ▸ hvo⟩
      · rw [if_neg hsome] at hfind
        rw [hfind] at hv
        exact absurd hv (by simp)

theorem batch_capacity (tid : Nat) (t : Trip) (db : DB)
    (es : List (SignUp × Bool))
    (hg : getTrip db tid = some t)
    (hnd : (db.signups.map (fun u => u.id)).Nodup)
    (hes : (es.map (fun e => e.1.id)).Nodup)
    (hinv : ∀ e ∈ es, e.1.trip = tid ∧ getSignup db e.1.id = some e.1)
    (hconf : ∀ r ∈ db.signups, r.trip = tid → r.on_trip = true →
      r.id ∈ es.map (fun e => e.1.id)) :
    confirmedCount (update_signups db es) tid
      ≤ t.maximum_participants.toNat := by
  have hmem := batch_confirmed_mem_take tid t db es hg hnd hes hinv hconf
  have hvout := rePlaceOutcomes_value_id t.maximum_participants.toNat
    (es.map (fun e => (clearedOf e.1, e.2))) 0 0
  have hndfin : ((update_signups db es).signups.map (fun u => u.id)).Nodup := by
    rw [update_signups_characterization t db es tid hg hnd hes hinv hconf]
    exact hnd.sublist (ids_applyOutcomes_sublist _ hvout db.signups)
  have hsub : ∀ x ∈ (((update_signups db es).signups.filter
      (fun u => u.trip == tid && u.on_trip)).map (fun u => u.id)),
      x ∈ ((survivors es).take t.maximum_participants.toNat).map
        (fun s => s.id) := by
    intro x hx
    obtain ⟨r, hr, rfl⟩ := List.mem_map.mp hx
    obtain ⟨hrmem, hrp⟩ := List.mem_filter.mp hr
    have hrt : r.trip = tid ∧ r.on_trip = true := by simpa using hrp
    have hfr : getSignup (update_signups db es) r.id = some r :=
      find?_self_of_nodup hndfin hrmem
    exact hmem r.id r hfr hrt.1 hrt.2
  have hndL : (((update_signups db es).signups.filter
      (fun u => u.trip == tid && u.on_trip)).map (fun u => u.id)).Nodup :=
    hndfin.sublist (List.Sublist.map _ (List.filter_sublist _))
  have hlen := (hndL.subperm hsub).length_le
  rw [List.length_map] at hlen
  refine le_trans hlen ?_
  rw [List.length_map, List.length_take]
  exact min_le_left _ _

/-- C5 counterexample: a batch request that only lowers the capacity
(no signup instructions) completes successfully and leaves more
confirmed signups than the new capacity: on the example store (capacity
2, signups 1 and 2 confirmed), posting `maximum_participants = 1` with
an empty instruction list succeeds, sets the capacity to 1, and leaves
both signups confirmed. -/
theorem C5_capacity_invariant_counterexample :
    (adminPost exDB 1 { signups := [], maximum_participants := some 1
        }).2.toOption = some ()
    ∧ (getTrip (adminPost exDB 1
        { signups := [], maximum_participants := some 1 }).1 1).map
        (fun t => t.maximum_participants) = some 1
    ∧ confirmedCount (adminPost exDB 1
        { signups := [], maximum_participants := some 1 }).1 1 = 2 := by
  decide

/-- C5 (amended): the capacity invariant holds after an Admission
Controller placement of a new signup whose event satisfied the invariant
before, and after a Batch Reconciler run whose instruction list covers
every confirmed signup of the event; it does not hold after an
arbitrary completed batch request (see the counterexample, where a
capacity-only reduction strands confirmed signups above capacity). -/
theorem C5_capacity_invariant
    (db : DB) (s : SignUp) (t : Trip) (tmbo : Bool)
    (db2 : DB) (t2 : Trip) (es : List (SignUp × Bool)) (tid : Nat)
    (hg : getTrip db s.trip = some t)
    (hnew : getSignup db s.id = none)
    (hle : confirmedCount db s.trip ≤ t.maximum_participants.toNat)
    (hg2 : getTrip db2 tid = some t2)
    (hnd : (db2.signups.map (fun u => u.id)).Nodup)
    (hes : (es.map (fun e => e.1.id)).Nodup)
    (hinv : ∀ e ∈ es, e.1.trip = tid ∧ getSignup db2 e.1.id = some e.1)
    (hconf : ∀ r ∈ db2.signups, r.trip = tid → r.on_trip = true →
      r.id ∈ es.map (fun e => e.1.id)) :
    confirmedCount (trip_or_wait db s tmbo).1 s.trip
        ≤ t.maximum_participants.toNat
    ∧ confirmedCount (update_signups db2 es) tid
        ≤ t2.maximum_participants.toNat :=
  ⟨trip_or_wait_capacity db s t tmbo hg hnew hle,
   batch_capacity tid t2 db2 es hg2 hnd hes hinv hconf⟩

/-- Witness for C5: a fresh signup placed on the full example trip, and
the full-roster batch run of the example store. -/
theorem C5_capacity_invariant_witness :
    confirmedCount (trip_or_wait exDB
        { id := 7, participant := 7, trip := 1, on_trip := false,
          order := none, time_created := 30, skip_signals := false }
        true).1 1
      ≤ exTrip.maximum_participants.toNat
    ∧ confirmedCount (update_signups exDB
        [(exS1, false), (exS2, true), (exS3, false), (exS4, false)]) 1
      ≤ exTrip.maximum_participants.toNat :=
  C5_capacity_invariant exDB
    { id := 7, participant := 7, trip := 1, on_trip := false,
      order := none, time_created := 30, skip_signals := false }
    exTrip true exDB exTrip
    [(exS1, false), (exS2, true), (exS3, false), (exS4, false)] 1
    (by decide) (by decide) (by decide) (by decide) (by decide) (by decide)
    (by decide) (by decide)

theorem id_inj_of_nodup {l : List SignUp}
    (hnd : (l.map (fun u => u.id)).Nodup)
    {u r : SignUp} (hu : u ∈ l) (hr : r ∈ l) (hid : u.id = r.id) : u = r := by
  have h1 := find?_self_of_nodup hnd hu
  rw [hid] at h1
  have h2 := find?_self_of_nodup hnd hr
  rw [h1] at h2
  exact Option.some.inj h2

theorem length_filter_replaceRow (i : Nat) (v : SignUp)
    (pred : SignUp → Bool) :
    ∀ l : List SignUp, (∀ u ∈ l, u.id = i → pred v = pred u) →
      ((replaceRow i v l).filter pred).length = (l.filter pred).length := by
  intro l
  induction l with
  | nil => intro _; rfl
  | cons u rest ih =>
    intro h
    have htail := ih (fun x hx hxi => h x (List.mem_cons_of_mem u hx) hxi)
    show (List.filter pred ((if (u.id == i) = true then v else u)
        :: replaceRow i v rest)).length
      = (List.filter pred (u :: rest)).length
    rw [List.filter_cons, List.filter_cons]
    cases hui : (u.id == i) with
    | false =>
      rw [if_neg Bool.false_ne_true]
      cases hp : pred u with
      | false =>
        rw [if_neg Bool.false_ne_true, if_neg Bool.false_ne_true]
        exact htail
      | true =>
        rw [if_pos rfl, if_pos rfl]
        dsimp only [List.length_cons]
        exact congrArg (fun n => n + 1) htail
    | true =>
      rw [if_pos rfl]
      have hvu : pred v = pred u :=
        h u (List.mem_cons_self u rest) (beq_iff_eq.mp hui)
      rw [hvu]
      cases hp : pred u with
      | false =>
        rw [if_neg Bool.false_ne_true, if_neg Bool.false_ne_true]
        exact htail
      | true =>
        rw [if_pos rfl, if_pos rfl]
        dsimp only [List.length_cons]
        exact congrArg (fun n => n + 1) htail

theorem isEmpty_eq_of_length_eq {l1 l2 : List SignUp}
    (h : l1.length = l2.length) : l1.isEmpty = l2.isEmpty := by
  cases l1 <;> cases l2 <;> simp_all

theorem handlePairedLoop_sync (q : Nat) :
    ∀ (l : List SignUp) (db : DB) (warns : List Nat),
      (db.signups.map (fun u => u.id)).Nodup →
      (∀ s ∈ l, (db.signups.filter
        (fun r => r.participant == q && r.trip == s.trip)).length ≤ 1) →
      ((l.map (fun s => s.trip)).Nodup) →
      handlePairedLoop db q l warns
        = .ok ({ db with signups := db.signups.map (pairSync l q) },
            warns.reverse ++ missingPairTrips db q l) := by
  intro l
  induction l with
  | nil =>
    intro db warns hnd husig htr
    unfold handlePairedLoop
    have hm : db.signups.map (pairSync [] q) = db.signups := by
      have h1 : db.signups.map (pairSync [] q)
          = db.signups.map (fun r => r) :=
        List.map_congr_left (fun r _ => by unfold pairSync; simp)
      rw [h1]
      exact List.map_id' db.signups
    rw [hm]
    simp [missingPairTrips]
  | cons s rest ih =>
    intro db warns hnd husig htr
    have htr' : ((rest.map (fun x => x.trip)).Nodup) :=
      (List.nodup_cons.mp htr).2
    have hsni : s.trip ∉ rest.map (fun x => x.trip) :=
      (List.nodup_cons.mp htr).1
    unfold handlePairedLoop getPairSignup
    cases hfil : db.signups.filter
        (fun r => r.participant == q && r.trip == s.trip) with
    | nil =>
      dsimp only
      rw [ih db (s.trip :: warns) hnd
        (fun x hx => husig x (List.mem_cons_of_mem s hx)) htr']
      have hmapeq : db.signups.map (pairSync rest q)
          = db.signups.map (pairSync (s :: rest) q) := by
        apply List.map_congr_left
        intro u hu
        unfold pairSync
        by_cases hup : (u.participant == q) = true
        · rw [if_pos hup, if_pos hup]
          have hst : ((fun x => x.trip == u.trip) s) = false := by
            by_contra hcontra
            have hteq : s.trip = u.trip := by
              cases hv : (s.trip == u.trip) with
              | false => exact absurd (by simpa using hv) hcontra
              | true => exact beq_iff_eq.mp hv
            have humem : u ∈ db.signups.filter
                (fun r => r.participant == q && r.trip == s.trip) := by
              rw [List.mem_filter]
              refine ⟨hu, ?_⟩
              rw [hup]
              simp [hteq]
            rw [hfil] at humem
            exact absurd humem (List.not_mem_nil u)
          rw [find?_cons_neg' (fun x => x.trip == u.trip) s rest hst]
        · rw [if_neg hup, if_neg hup]
      have hmiss : missingPairTrips db q (s :: rest)
          = s.trip :: missingPairTrips db q rest := by
        unfold missingPairTrips
        rw [List.filter_cons]
        rw [if_pos (by rw [hfil]; rfl)]
        rfl
      rw [hmapeq, hmiss]
      simp
    | cons ps tail =>
      cases tail with
      | cons x tail' =>
        exfalso
        have hle := husig s (List.mem_cons_self s rest)
        rw [hfil] at hle
        simp at hle
      | nil =>
        dsimp only
        have hpsf : ps ∈ db.signups.filter
            (fun r => r.participant == q && r.trip == s.trip) := by
          rw [hfil]
          exact List.mem_cons_self ps []
        have hpsmem : ps ∈ db.signups := (List.mem_filter.mp hpsf).1
        have hpspred := (List.mem_filter.mp hpsf).2
        have hpq : ps.participant = q := by
          have h0 := hpspred
          simp at h0
          exact h0.1
        have hpt : ps.trip = s.trip := by
          have h0 := hpspred
          simp at h0
          exact h0.2
        have hget : getSignup db ps.id = some ps :=
          find?_self_of_nodup hnd hpsmem
        have hsave : saveSignup db { ps with order := s.order }
            = saveSignupRow db { ps with order := s.order } := by
          unfold saveSignup
          rw [show getSignup db ({ ps with order := s.order } : SignUp).id
              = some ps from hget]
          dsimp only
          rw [if_neg (by cases hpo : ps.on_trip <;> simp [hpo])]
        have hany : db.signups.any
            (fun u => u.id == ({ ps with order := s.order } : SignUp).id)
            = true := by
          rw [List.any_eq_true]
          exact ⟨ps, hpsmem, by simp⟩
        have hrowrep : saveSignupRow db { ps with order := s.order }
            = { db with signups := replaceRow ps.id { ps with order := s.order } db.signups } := by
          unfold saveSignupRow
          rw [hany]
          rw [if_pos rfl]
          rfl
        have hnd' : ((replaceRow ps.id { ps with order := s.order }
            db.signups).map (fun u => u.id)).Nodup := by
          rw [ids_replaceRow ps.id { ps with order := s.order } rfl]
          exact hnd
        have hrepl_len : ∀ pred : SignUp → Bool,
            pred { ps with order := s.order } = pred ps →
            ((replaceRow ps.id { ps with order := s.order }
              db.signups).filter pred).length
              = (db.signups.filter pred).length := by
          intro pred hpr
          refine length_filter_replaceRow ps.id _ pred db.signups ?_
          intro u hu hui
          rw [hpr]
          rw [id_inj_of_nodup hnd hu hpsmem hui]
        have husig' : ∀ x ∈ rest,
            ((replaceRow ps.id { ps with order := s.order }
              db.signups).filter
              (fun r => r.participant == q && r.trip == x.trip)).length
              ≤ 1 := by
          intro x hx
          rw [hrepl_len (fun r => r.participant == q && r.trip == x.trip) rfl]
          exact husig x (List.mem_cons_of_mem s hx)
        rw [hsave, hrowrep]
        rw [ih { db with signups := replaceRow ps.id { ps with order := s.order } db.signups } warns hnd' husig' htr']
        have hmapeq : (replaceRow ps.id { ps with order := s.order }
              db.signups).map (pairSync rest q)
            = db.signups.map (pairSync (s :: rest) q) := by
          unfold replaceRow
          rw [List.map_map]
          apply List.map_congr_left
          intro u hu
          dsimp only [Function.comp]
          cases hui : (u.id == ps.id) with
          | true =>
            rw [if_pos rfl]
            have huep : u = ps :=
              id_inj_of_nodup hnd hu hpsmem (beq_iff_eq.mp hui)
            unfold pairSync
            rw [if_pos (by simp [hpq]), if_pos (by rw [huep]; simp [hpq])]
            have hnone : rest.find?
                (fun x => x.trip
                  == ({ ps with order := s.order } : SignUp).trip) = none := by
              rw [List.find?_eq_none]
              intro x hx
              simp only [Bool.not_eq_true]
              by_contra hcontra
              have hxeq : x.trip = ps.trip := by
                cases hv : (x.trip == ps.trip) with
                | false => exact absurd (by simpa using hv) hcontra
                | true => exact beq_iff_eq.mp hv
              exact hsni (hpt ▸ hxeq ▸ List.mem_map.mpr ⟨x, hx, rfl⟩)
            rw [hnone]
            rw [huep]
            rw [find?_cons_pos' (fun x => x.trip == ps.trip) s rest
              (by simp [hpt])]
          | false =>
            rw [if_neg Bool.false_ne_true]
            unfold pairSync
            by_cases hup : (u.participant == q) = true
            · rw [if_pos hup, if_pos hup]
              have hst : ((fun x => x.trip == u.trip) s) = false := by
                by_contra hcontra
                have hteq : s.trip = u.trip := by
                  cases hv : (s.trip == u.trip) with
                  | false => exact absurd (by simpa using hv) hcontra
                  | true => exact beq_iff_eq.mp hv
                have humem : u ∈ db.signups.filter
                    (fun r => r.participant == q && r.trip == s.trip) := by
                  rw [List.mem_filter]
                  refine ⟨hu, ?_⟩
                  rw [hup]
                  simp [hteq]
                rw [hfil] at humem
                have huep : u = ps := by
                  rcases List.mem_cons.mp humem with h0 | h0
                  · exact h0
                  · exact absurd h0 (List.not_mem_nil u)
                rw [huep] at hui
                simp at hui
              rw [find?_cons_neg' (fun x => x.trip == u.trip) s rest hst]
            · rw [if_neg hup, if_neg hup]
        have hmiss1 : missingPairTrips { db with signups := replaceRow ps.id { ps with order := s.order } db.signups } q rest
            = missingPairTrips db q rest := by
          unfold missingPairTrips
          dsimp only
          congr 1
          apply List.filter_congr
          intro x _
          exact isEmpty_eq_of_length_eq
            (hrepl_len (fun r => r.participant == q && r.trip == x.trip) rfl)
        have hmiss2 : missingPairTrips db q (s :: rest)
            = missingPairTrips db q rest := by
          unfold missingPairTrips
          rw [List.filter_cons]
          rw [if_neg (by rw [hfil]; simp)]
        rw [hmapeq, hmiss1, hmiss2]

/-- C9: pairing synchronization runs only for a reciprocal pairing (a
non-reciprocal participant's request is a no-op with no notices), and a
reciprocal run never fails: for each of the participant's ranked future
lottery signups whose trip has a partner signup, the partner's rank is
overwritten to match, and each ranked trip with no partner signup is
left unmutated and recorded as an advisory notice. -/
theorem C9_pairing_synchronization
    (db0 : DB) (p0 today0 : Nat)
    (db : DB) (p q today : Nat)
    (hnr : reciprocally_paired db0 p0 = false)
    (hrp : reciprocally_paired db p = true)
    (hq : paired_par db p = some q)
    (hnd : (db.signups.map (fun u => u.id)).Nodup)
    (husig : ∀ s ∈ ranked_signups db p today, (db.signups.filter
      (fun r => r.participant == q && r.trip == s.trip)).length ≤ 1)
    (htr : ((ranked_signups db p today).map (fun s => s.trip)).Nodup) :
    handle_paired_signups db0 p0 today0 = .ok (db0, [])
    ∧ handle_paired_signups db p today
      = .ok ({ db with signups := db.signups.map (pairSync (ranked_signups db p today) q) },
          missingPairTrips db q (ranked_signups db p today)) := by
  constructor
  · unfold handle_paired_signups
    rw [hnr]
    rfl
  · unfold handle_paired_signups
    rw [hrp, hq]
    dsimp only
    rw [handlePairedLoop_sync q (ranked_signups db p today) db [] hnd husig
      htr]
    simp

/-- Witness for C9: participant 11 of the plain example store is not
paired at all (no-op path), while participants 21 and 22 of the pairing
store are reciprocally paired: 22's signup for trip 7 takes 21's rank,
and trip 8 — which 22 never ranked — is the advisory notice. -/
theorem C9_pairing_synchronization_witness :
    handle_paired_signups exDB 11 0 = .ok (exDB, [])
    ∧ handle_paired_signups exDBPair 21 15
      = .ok ({ exDBPair with signups := exDBPair.signups.map (pairSync (ranked_signups exDBPair 21 15) 22) },
          missingPairTrips exDBPair 22 (ranked_signups exDBPair 21 15)) :=
  C9_pairing_synchronization exDB 11 0 exDBPair 21 22 15
    (by decide) (by decide) (by decide) (by decide) (by decide) (by decide)
